import Mathlib

/-!
Verification of the flag-normalization and context logic of a small Go
command-line library (files `app.go`, `context.go`).

The embedding is shallow: Go's mutable `flag.FlagSet` becomes an explicit
`FlagSet` record (declared cells, the set of explicitly-set names, leftover
positional arguments) that is threaded through the functions; Go functions
returning `error` become functions returning an `Option String` error
component; a Go panic (out-of-range index, failed type assertion) becomes
`Option.none`.  External Go standard-library routines used by the code
(`strconv`, `strings`, the `flag` package primitives `Lookup`/`Set`/`Visit`,
`fmt` slice rendering) are modelled explicitly below, restricted to the
behaviour the library exercises.
-/

/-- Decimal digit character for a value below ten (models Go strconv digits). -/
def digitChar (d : Nat) : Char := Char.ofNat (48 + d)

/-- Fuel-driven decimal rendering helper (structural recursion so the kernel
can evaluate it; any fuel above the value gives the rendering). -/
def natToCharsFuel : Nat → Nat → List Char
  | 0, _ => []
  | fuel + 1, n =>
    if n < 10 then [digitChar n]
    else natToCharsFuel fuel (n / 10) ++ [digitChar (n % 10)]

/-- Decimal rendering of a natural number as characters, most significant first
(models Go strconv.Itoa on naturals). -/
def natToChars (n : Nat) : List Char := natToCharsFuel (n + 1) n

/-- Decimal rendering of a natural number as a string. -/
def natRepr (n : Nat) : String := ⟨natToChars n⟩

/-- Decimal rendering of an integer (models Go strconv.Itoa). -/
def intRepr (n : Int) : String :=
  if n < 0 then ⟨'-' :: natToChars n.natAbs⟩ else ⟨natToChars n.natAbs⟩

/-- Numeric value of a decimal digit character, if it is one. -/
def charToDigit (c : Char) : Option Nat :=
  if '0' ≤ c && c ≤ '9' then some (c.toNat - 48) else none

/-- Accumulating decimal parse of a character list; fails on any non-digit. -/
def parseDigitsGo : List Char → Nat → Option Nat
  | [], acc => some acc
  | c :: cs, acc =>
    match charToDigit c with
    | some d => parseDigitsGo cs (acc * 10 + d)
    | none => none

/-- Parse of a non-empty all-digit character list. -/
def parseNatChars (l : List Char) : Option Nat :=
  if l.isEmpty then none else parseDigitsGo l 0

/-- Signed decimal parse of a character list (sign handling of Go strconv.Atoi). -/
def parseIntChars : List Char → Option Int
  | [] => none
  | c :: rest =>
    if c == '-' then (parseNatChars rest).map (fun n => -(n : Int))
    else if c == '+' then (parseNatChars rest).map (fun n => (n : Int))
    else (parseNatChars (c :: rest)).map (fun n => (n : Int))

/-- Smallest value of Go's 64-bit int. -/
def int64Min : Int := -(2 ^ 63)

/-- Largest value of Go's 64-bit int. -/
def int64Max : Int := 2 ^ 63 - 1

/-- Model of Go strconv.Atoi: signed decimal parse with the 64-bit range check
(out-of-range input is an error, hence `none`). -/
def goAtoi (s : String) : Option Int :=
  match parseIntChars s.data with
  | none => none
  | some v => if int64Min ≤ v ∧ v ≤ int64Max then some v else none

/-- Model of Go strconv.ParseBool: the exact set of accepted literals. -/
def goParseBool (s : String) : Option Bool :=
  if s == "1" || s == "t" || s == "T" || s == "true" || s == "TRUE" || s == "True" then
    some true
  else if s == "0" || s == "f" || s == "F" || s == "false" || s == "FALSE" || s == "False" then
    some false
  else none

/-- Parse of a possibly-empty digit run (empty means zero), used for the parts
of a decimal mantissa. -/
def parseDigitsOpt (l : List Char) : Option Nat :=
  if l.isEmpty then some 0 else parseDigitsGo l 0

/-- Decimal mantissa `digits[.digits]` as an exact rational. -/
def parseDecMantissa (l : List Char) : Option ℚ :=
  match l.splitOn '.' with
  | [ip] => (parseNatChars ip).map (fun n => (n : ℚ))
  | [ip, fp] =>
    if ip.isEmpty && fp.isEmpty then none
    else
      match parseDigitsOpt ip, parseDigitsOpt fp with
      | some i, some f => some ((i : ℚ) + (f : ℚ) / (10 : ℚ) ^ fp.length)
      | _, _ => none
  | _ => none

/-- Split a mantissa from an optional exponent part at `e`/`E`; a malformed
shape is forced to fail by returning an empty exponent. -/
def splitExp (l : List Char) : List Char × Option (List Char) :=
  match l.splitOn 'e' with
  | [m] =>
    match m.splitOn 'E' with
    | [m2] => (m2, none)
    | [m2, e] => (m2, some e)
    | _ => (l, some [])
  | [m, e] => (m, some e)
  | _ => (l, some [])

/-- Apply an optional leading sign, then a body parser (Go strconv style). -/
def parseSigned (l : List Char) (body : List Char → Option ℚ) : Option ℚ :=
  match l with
  | '-' :: rest => (body rest).map Neg.neg
  | '+' :: rest => body rest
  | _ => body l

/-- Modelled from the spec: Go strconv.ParseFloat (external standard library,
not in the repository) restricted to decimal forms `[sign]digits[.digits][(e|E)[sign]digits]`,
returning the exact rational value (no float rounding, no inf/nan/hex forms).
The library only observes parse success or failure and the parsed value. -/
def goParseFloat (s : String) : Option ℚ :=
  parseSigned s.data fun l =>
    let me := splitExp l
    match me.2 with
    | none => parseDecMantissa me.1
    | some e =>
      match parseDecMantissa me.1, parseIntChars e with
      | some q, some ex => some (q * (10 : ℚ) ^ ex)
      | _, _ => none

/-- Space-separated concatenation, for Go fmt's rendering of slices. -/
def joinSpace : List (List Char) → List Char
  | [] => []
  | [x] => x
  | x :: xs => x ++ ' ' :: joinSpace xs

/-- Modelled from the spec: Go fmt rendering of an int slice, `[1 2 3]`,
as produced by the IntSlice flag value's String method (flag.go is not in
the provided sources). -/
def intSliceRepr (l : List Int) : String :=
  ⟨'[' :: (joinSpace (l.map fun n => (intRepr n).data) ++ [']'])⟩

/-- Modelled from the spec: Go fmt rendering of a string slice, `[a b c]`,
as produced by the StringSlice flag value's String method (flag.go is not in
the provided sources). -/
def strSliceRepr (l : List String) : String :=
  ⟨'[' :: (joinSpace (l.map String.data) ++ [']'])⟩

/-- Split a character list at commas (models Go strings.Split with separator
a single comma). -/
def splitComma : List Char → List (List Char)
  | [] => [[]]
  | c :: rest =>
    let r := splitComma rest
    if c == ',' then [] :: r
    else
      match r with
      | [] => [[c]]
      | h :: t => (c :: h) :: t

/-- Model of Go strings.Split on a comma separator. -/
def goSplit (s : String) : List String := (splitComma s.data).map fun l => ⟨l⟩

/-- Whitespace test for trimming (models Go unicode.IsSpace on the ASCII
whitespace the library encounters). -/
def isSpaceChar (c : Char) : Bool := c == ' ' || c == '\t' || c == '\n' || c == '\r'

/-- Model of Go strings.TrimSpace. -/
def goTrimSpace (s : String) : String :=
  ⟨((s.data.dropWhile isSpaceChar).reverse.dropWhile isSpaceChar).reverse⟩

/-- Kinds of flag value cells (the seven supported flag kinds; the tri-state
bool flag uses a bool cell with default true). -/
inductive FlagKind
  | boolK
  | intK
  | floatK
  | strK
  | strSliceK
  | intSliceK
deriving DecidableEq

/-- Value stored in one flag cell.  Float cells keep the textual form that was
parsed into them (Go stores the rounded float64 and re-renders it; the library
only round-trips the text through parse, so the textual model is faithful for
every observation the code makes). -/
inductive FlagValue
  | boolV (b : Bool)
  | intV (n : Int)
  | floatV (s : String)
  | strV (s : String)
  | strSliceV (l : List String)
  | intSliceV (l : List Int)
deriving DecidableEq

/-- Kind of a stored value. -/
def FlagValue.kind : FlagValue → FlagKind
  | .boolV _ => .boolK
  | .intV _ => .intK
  | .floatV _ => .floatK
  | .strV _ => .strK
  | .strSliceV _ => .strSliceK
  | .intSliceV _ => .intSliceK

/-- Model of the Value.String method of each cell kind (the flag package calls
through the Value interface). -/
def FlagValue.string : FlagValue → String
  | .boolV b => if b then "true" else "false"
  | .intV n => intRepr n
  | .floatV s => s
  | .strV s => s
  | .strSliceV l => strSliceRepr l
  | .intSliceV l => intSliceRepr l

/-- Model of the Value.Set method of each cell kind: bool/int/float cells parse
the text (failing on malformed input), string cells store it, slice cells
append one parsed element (flag.go's StringSlice.Set appends the string,
IntSlice.Set appends one Atoi-parsed int). -/
def FlagValue.setValue : FlagValue → String → Option FlagValue
  | .boolV _, s => (goParseBool s).map .boolV
  | .intV _, s => (goAtoi s).map .intV
  | .floatV _, s => (goParseFloat s).map fun _ => .floatV s
  | .strV _, s => some (.strV s)
  | .strSliceV l, s => some (.strSliceV (l ++ [s]))
  | .intSliceV l, s => (goAtoi s).map fun n => .intSliceV (l ++ [n])

/-- Well-formedness of a stored value: int cells hold a 64-bit value (Go's
int), float cells hold parseable text.  Values produced by parsing always
satisfy this. -/
def FlagValue.wfB : FlagValue → Bool
  | .intV n => decide (int64Min ≤ n ∧ n ≤ int64Max)
  | .floatV s => (goParseFloat s).isSome
  | _ => true

/-- Model of Go's flag.FlagSet: the declared cells keyed by flag name
(`formal`), the names recorded as explicitly set (`actual`, what Visit
iterates), and the leftover positional arguments. -/
structure FlagSet where
  formal : List (String × FlagValue)
  actual : List String
  args : List String
deriving DecidableEq

/-- Model of flag.FlagSet.Lookup: the declared cell for a name. -/
def FlagSet.lookup (set : FlagSet) (name : String) : Option (String × FlagValue) :=
  set.formal.find? fun p => p.1 == name

/-- Model of flag.FlagSet.Set: parse the text into the named cell via its
Value.Set method and mark the name as set; a missing name or a failed parse is
an error, which the caller (copyFlag) discards, leaving the set unchanged. -/
def FlagSet.setFlag (set : FlagSet) (name value : String) : FlagSet :=
  match set.lookup name with
  | none => set
  | some p =>
    match p.2.setValue value with
    | none => set
    | some v2 =>
      { formal := set.formal.map fun q => if q.1 == name then (q.1, v2) else q
        actual := if name ∈ set.actual then set.actual else set.actual ++ [name]
        args := set.args }

/-- The seven flag definition kinds of flag.go, with the fields visible in the
sources (BoolFlag has name and usage; valued kinds carry their default).  Go
compares these by struct equality in App.hasFlag. -/
inductive GoFlag
  | boolFlag (name usage : String)
  | boolTFlag (name usage : String)
  | intFlag (name : String) (value : Int) (usage : String)
  | float64Flag (name : String) (value : String) (usage : String)
  | stringFlag (name : String) (value : String) (usage : String)
  | stringSliceFlag (name : String) (value : List String) (usage : String)
  | intSliceFlag (name : String) (value : List Int) (usage : String)
deriving DecidableEq

/-- The getName method of every flag kind: its (possibly comma-joined) name. -/
def GoFlag.getName : GoFlag → String
  | .boolFlag n _ => n
  | .boolTFlag n _ => n
  | .intFlag n _ _ => n
  | .float64Flag n _ _ => n
  | .stringFlag n _ _ => n
  | .stringSliceFlag n _ _ => n
  | .intSliceFlag n _ _ => n

/-- Cell kind a flag registers (the tri-state bool registers a bool cell). -/
def GoFlag.cellKind : GoFlag → FlagKind
  | .boolFlag _ _ => .boolK
  | .boolTFlag _ _ => .boolK
  | .intFlag _ _ _ => .intK
  | .float64Flag _ _ _ => .floatK
  | .stringFlag _ _ _ => .strK
  | .stringSliceFlag _ _ _ => .strSliceK
  | .intSliceFlag _ _ _ => .intSliceK

/-- Default cell value a flag registers (bool flags default false, the
tri-state bool defaults true, valued flags use their declared default). -/
def GoFlag.defaultValue : GoFlag → FlagValue
  | .boolFlag _ _ => .boolV false
  | .boolTFlag _ _ => .boolV true
  | .intFlag _ v _ => .intV v
  | .float64Flag _ v _ => .floatV v
  | .stringFlag _ v _ => .strV v
  | .stringSliceFlag _ v _ => .strSliceV v
  | .intSliceFlag _ v _ => .intSliceV v

/-- Whether a flag's cells hold a slice kind. -/
def GoFlag.isSlice (f : GoFlag) : Bool :=
  f.cellKind == .strSliceK || f.cellKind == .intSliceK

/-- The mapS helper of context.go: apply a function to each string in a list. -/
def mapS (sl : List String) (f : String → String) : List String := sl.map f

/-- Comma-split, whitespace-trimmed alias list of a flag, exactly as
normalizeFlags computes it. -/
def GoFlag.parts (f : GoFlag) : List String := mapS (goSplit f.getName) goTrimSpace

/-- Error message of the alias conflict in normalizeFlags. -/
def conflictMsg (name ffName : String) : String :=
  "Cannot use two forms of the same flag: " ++ name ++ " " ++ ffName

/-- The first loop of normalizeFlags over one flag's aliases: find the
explicitly-set alias, failing if a second one is found while one is already
held (mirrors the Go loop with its nil-lookup behaviour). -/
def pickFF (visited : List String) (set : FlagSet) :
    List String → Option (String × FlagValue) → Except String (Option (String × FlagValue))
  | [], ff => .ok ff
  | name :: rest, ff =>
    if visited.contains name then
      match ff with
      | some p => .error (conflictMsg name p.1)
      | none => pickFF visited set rest (set.lookup name)
    else pickFF visited set rest ff

/-- The copyFlag helper of context.go: copy a resolved value onto a named cell
via FlagSet.Set, except that a StringSlice value is exempted (the type switch
in the source). -/
def copyFlag (name : String) (ff : FlagValue) (set : FlagSet) : FlagSet :=
  match ff with
  | .strSliceV _ => set
  | _ => set.setFlag name ff.string

/-- The second loop of normalizeFlags over one flag's aliases: copy the
resolved value onto every alias not explicitly set. -/
def copyAll (parts visited : List String) (ff : FlagValue) (set : FlagSet) : FlagSet :=
  parts.foldl (fun s name => if visited.contains name then s else copyFlag name ff s) set

/-- One iteration of normalizeFlags' outer loop, for one flag definition. -/
def normalizeStep (visited : List String) (set : FlagSet) (f : GoFlag) : Except String FlagSet :=
  let parts := f.parts
  if parts.length == 1 then .ok set
  else
    match pickFF visited set parts none with
    | .error e => .error e
    | .ok none => .ok set
    | .ok (some ff) => .ok (copyAll parts visited ff.2 set)

/-- The outer loop of normalizeFlags.  The visited set is fixed at entry (the
Go code snapshots it into a map before the loop); an error aborts the loop but
keeps the mutations already applied (the Go FlagSet is mutated in place). -/
def normGo (visited : List String) : List GoFlag → FlagSet → Option String × FlagSet
  | [], set => (none, set)
  | f :: rest, set =>
    match normalizeStep visited set f with
    | .error e => (some e, set)
    | .ok set2 => normGo visited rest set2

/-- The normalizeFlags function of context.go.  Returns the error (if any)
together with the flag set as mutated by the call. -/
def normalizeFlags (flags : List GoFlag) (set : FlagSet) : Option String × FlagSet :=
  normGo set.actual flags set

/-- The lookupInt helper of context.go: value of a named int flag, zero when
the name is missing or its text does not parse. -/
def lookupInt (name : String) (set : FlagSet) : Int :=
  match set.lookup name with
  | none => 0
  | some f =>
    match goAtoi f.2.string with
    | none => 0
    | some val => val

/-- The lookupFloat64 helper of context.go (value domain modelled by ℚ). -/
def lookupFloat64 (name : String) (set : FlagSet) : ℚ :=
  match set.lookup name with
  | none => 0
  | some f =>
    match goParseFloat f.2.string with
    | none => 0
    | some val => val

/-- The lookupString helper of context.go. -/
def lookupString (name : String) (set : FlagSet) : String :=
  match set.lookup name with
  | none => ""
  | some f => f.2.string

/-- The lookupStringSlice helper of context.go.  The Go code type-asserts
`f.Value.(*StringSlice)`, which panics when the named flag is declared with a
different kind; the panic is modelled by `none`. -/
def lookupStringSlice (name : String) (set : FlagSet) : Option (List String) :=
  match set.lookup name with
  | none => some []
  | some f =>
    match f.2 with
    | .strSliceV l => some l
    | _ => none

/-- The lookupIntSlice helper of context.go, with the same panic behaviour on
a kind mismatch as lookupStringSlice. -/
def lookupIntSlice (name : String) (set : FlagSet) : Option (List Int) :=
  match set.lookup name with
  | none => some []
  | some f =>
    match f.2 with
    | .intSliceV l => some l
    | _ => none

/-- The lookupBool helper of context.go: false when missing or malformed. -/
def lookupBool (name : String) (set : FlagSet) : Bool :=
  match set.lookup name with
  | none => false
  | some f =>
    match goParseBool f.2.string with
    | none => false
    | some val => val

/-- The lookupBoolT helper of context.go: false when the flag is missing, but
true when the flag is present and its text fails to parse as a bool. -/
def lookupBoolT (name : String) (set : FlagSet) : Bool :=
  match set.lookup name with
  | none => false
  | some f =>
    match goParseBool f.2.string with
    | none => true
    | some val => val

/-- The Context of context.go: the local and global flag sets plus the lazily
built set-flags cache (`nil` until the first IsSet call). -/
structure Context where
  flagSet : FlagSet
  globalSet : FlagSet
  setFlags : Option (List String)

/-- The NewContext constructor: cache not yet built. -/
def NewContext (set globalSet : FlagSet) : Context :=
  { flagSet := set, globalSet := globalSet, setFlags := none }

/-- Context.Int. -/
def Context.int (c : Context) (name : String) : Int := lookupInt name c.flagSet

/-- Context.Float64. -/
def Context.float64 (c : Context) (name : String) : ℚ := lookupFloat64 name c.flagSet

/-- Context.Bool. -/
def Context.bool (c : Context) (name : String) : Bool := lookupBool name c.flagSet

/-- Context.BoolT. -/
def Context.boolT (c : Context) (name : String) : Bool := lookupBoolT name c.flagSet

/-- Context.String. -/
def Context.string (c : Context) (name : String) : String := lookupString name c.flagSet

/-- Context.StringSlice. -/
def Context.stringSlice (c : Context) (name : String) : Option (List String) :=
  lookupStringSlice name c.flagSet

/-- Context.IntSlice. -/
def Context.intSlice (c : Context) (name : String) : Option (List Int) :=
  lookupIntSlice name c.flagSet

/-- Context.GlobalInt. -/
def Context.globalInt (c : Context) (name : String) : Int := lookupInt name c.globalSet

/-- Context.GlobalBool. -/
def Context.globalBool (c : Context) (name : String) : Bool := lookupBool name c.globalSet

/-- Context.GlobalString. -/
def Context.globalString (c : Context) (name : String) : String := lookupString name c.globalSet

/-- Context.GlobalStringSlice. -/
def Context.globalStringSlice (c : Context) (name : String) : Option (List String) :=
  lookupStringSlice name c.globalSet

/-- Context.GlobalIntSlice. -/
def Context.globalIntSlice (c : Context) (name : String) : Option (List Int) :=
  lookupIntSlice name c.globalSet

/-- Context.IsSet: on the first call the visited names of the local set are
snapshotted into the cache; every later call answers from the cache.  The
mutation of the receiver is modelled by returning the updated Context. -/
def Context.isSet (c : Context) (name : String) : Bool × Context :=
  match c.setFlags with
  | none =>
    (c.flagSet.actual.contains name, { c with setFlags := some c.flagSet.actual })
  | some m => (m.contains name, c)

/-- The Args type of context.go. -/
def Args := List String

/-- Context.Args: the leftover positional arguments of the local set. -/
def Context.args (c : Context) : Args := c.flagSet.args

/-- Args.Get of context.go.  The Go index is an int; the guard is
`len(a) > n`, and the subsequent `a[n]` panics for negative `n` (modelled by
`none`). -/
def Args.get (a : Args) (n : Int) : Option String :=
  if (List.length a : Int) > n then
    if 0 ≤ n then some ((a : List String).getD n.toNat "") else none
  else some ""

/-- Args.First of context.go: Get(0). -/
def Args.first (a : Args) : Option String := a.get 0

/-- Args.Tail of context.go: everything after the first element when there are
at least two, otherwise an empty slice. -/
def Args.tail (a : Args) : List String :=
  if (List.length a) ≥ 2 then (a : List String).drop 1 else []

/-- Args.Present of context.go. -/
def Args.present (a : Args) : Bool := (List.length a) != 0

/-- The Command of command.go (not in the provided sources).  Modelled from
the spec: a possibly comma-joined name and a handler outcome; the handler
result stands for whatever error Command.Run returns. -/
structure Command where
  name : String
  result : Option String

/-- Modelled from the spec: Command.HasName matches the queried name against
the command's comma-split, trimmed aliases (command.go is not in the provided
sources). -/
def Command.hasName (c : Command) (name : String) : Bool :=
  (mapS (goSplit c.name) goTrimSpace).contains name

/-- The App structure of app.go, restricted to the fields the run path reads:
flags, commands, and the optional Before hook (modelled as a function from the
parsed global set to an optional error).  The default Action is always present
(NewApp installs one), so it is modelled as always runnable. -/
structure App where
  name : String
  commands : List Command
  flags : List GoFlag
  before : Option (FlagSet → Option String)

/-- App.Command of app.go: first command whose HasName matches. -/
def App.command (a : App) (name : String) : Option Command :=
  a.commands.find? fun c => c.hasName name

/-- App.hasFlag of app.go: Go compares the flag values themselves (struct
equality), not merely their names. -/
def App.hasFlag (a : App) (f : GoFlag) : Bool := a.flags.contains f

/-- App.appendFlag of app.go: append unless an equal flag value exists. -/
def App.appendFlag (a : App) (f : GoFlag) : App :=
  if a.hasFlag f then a else { a with flags := a.flags ++ [f] }

/-- The implicit version flag App.Run registers. -/
def versionFlag : GoFlag := .boolFlag "version, v" "print the version"

/-- The implicit help flag App.Run registers. -/
def helpFlag : GoFlag := .boolFlag "help, h" "show help"

/-- The two appendFlag calls of App.Run, in source order (version first). -/
def App.withImplicitFlags (a : App) : App :=
  (a.appendFlag versionFlag).appendFlag helpFlag

/-- Modelled from the spec: the implicit help command App.Run appends
(helpCommand lives in help.go, which is not in the provided sources). -/
def helpCommand : Command := { name := "help, h", result := none }

/-- Modelled from the spec: checkHelp of help.go renders help and reports
whether the help flag is set (help.go is not in the provided sources). -/
def checkHelp (c : Context) : Bool := c.globalBool "help"

/-- Modelled from the spec: checkVersion of help.go reports whether the
version flag is set. -/
def checkVersion (c : Context) : Bool := c.globalBool "version"

/-- Terminal observations of one App.Run invocation. -/
inductive Outcome
  | normFailed (e : String)
  | usageFailed (e : String)
  | helpHandled
  | versionHandled
  | beforeFailed (e : String)
  | dispatched (cmd : String)
  | defaultAction
deriving DecidableEq

/-- Trace of one App.Run invocation: the terminal outcome, whether
application-level help text was rendered, whether the Before hook, a command
handler, or the default action ran, and the error returned to the caller. -/
structure RunTrace where
  outcome : Outcome
  helpRendered : Bool
  beforeRan : Bool
  commandRan : Bool
  defaultRan : Bool
  returnedError : Option String

/-- The dispatch tail of App.Run: select a command by the first positional
argument or fall through to the default action. -/
def App.dispatch (a : App) (set : FlagSet) (beforeRan : Bool) : RunTrace :=
  let args : Args := (NewContext set set).args
  if args.present then
    let name := (args.first).getD ""
    match a.command name with
    | some c =>
      { outcome := .dispatched c.name, helpRendered := false, beforeRan := beforeRan
        commandRan := true, defaultRan := false, returnedError := c.result }
    | none =>
      { outcome := .defaultAction, helpRendered := false, beforeRan := beforeRan
        commandRan := false, defaultRan := true, returnedError := none }
  else
    { outcome := .defaultAction, helpRendered := false, beforeRan := beforeRan
      commandRan := false, defaultRan := true, returnedError := none }

/-- App.Run after the external Token Parser produced the parsed set and its
optional syntax error: normalization, the two error paths (each rendering
application help and returning the error), the help and version checks (help
first), the Before hook, then dispatch.  This mirrors app.go lines 82-131. -/
def App.runFromParse (a : App) (set0 : FlagSet) (perr : Option String) : RunTrace :=
  let r := normalizeFlags a.flags set0
  match r.1 with
  | some nerr =>
    { outcome := .normFailed nerr, helpRendered := true, beforeRan := false
      commandRan := false, defaultRan := false, returnedError := some nerr }
  | none =>
    let set := r.2
    let context := NewContext set set
    match perr with
    | some err =>
      { outcome := .usageFailed err, helpRendered := true, beforeRan := false
        commandRan := false, defaultRan := false, returnedError := some err }
    | none =>
      if checkHelp context then
        { outcome := .helpHandled, helpRendered := true, beforeRan := false
          commandRan := false, defaultRan := false, returnedError := none }
      else if checkVersion context then
        { outcome := .versionHandled, helpRendered := false, beforeRan := false
          commandRan := false, defaultRan := false, returnedError := none }
      else
        match a.before with
        | some hook =>
          match hook set with
          | some err =>
            { outcome := .beforeFailed err, helpRendered := false, beforeRan := true
              commandRan := false, defaultRan := false, returnedError := some err }
          | none => a.dispatch set true
        | none => a.dispatch set false

/-- App.Run of app.go, with the external Token Parser supplied as a function
from the (implicit-augmented) flag list and the argument vector minus the
program name to the parsed set and optional syntax error.  The help command
and the two implicit flags are registered before parsing, as in the source. -/
def App.run (a : App) (parse : List GoFlag → List String → FlagSet × Option String)
    (arguments : List String) : RunTrace :=
  let a1 :=
    if (a.command helpCommand.name).isSome then a
    else { a with commands := a.commands ++ [helpCommand] }
  let a2 := a1.withImplicitFlags
  let pr := parse a2.flags (arguments.drop 1)
  a2.runFromParse pr.1 pr.2

/-- Number of a flag's aliases that appear in the visited-name list. -/
def visitedCount (visited : List String) (f : GoFlag) : Nat :=
  f.parts.countP fun n => visited.contains n

/-- All alias names of a flag list, in order. -/
def partsNames (flags : List GoFlag) : List String := (flags.map GoFlag.parts).flatten

/-- Table well-formedness: every alias of every flag has a cell of the flag's
kind whose stored value is well-formed.  Any table built by registering the
flags and parsing arguments against them satisfies this. -/
def cellsOKb (flags : List GoFlag) (set : FlagSet) : Bool :=
  flags.all fun f => f.parts.all fun n =>
    match set.lookup n with
    | some p => p.1 == n && (p.2.kind == f.cellKind) && p.2.wfB
    | none => false

/-- Unvisited aliases still hold their flag's default value (true of any table
the Token Parser produced, since only visited cells were written). -/
def unvisitedDefaultB (flags : List GoFlag) (set : FlagSet) : Bool :=
  flags.all fun f => f.parts.all fun n =>
    set.actual.contains n || (set.lookup n == some (n, f.defaultValue))

/-- Number of terminal outcomes (help handled, version handled, dispatched to
a command or the default action) observed in a run trace. -/
def RunTrace.terminalCount (t : RunTrace) : Nat :=
  (if t.outcome = .helpHandled then 1 else 0) +
  (if t.outcome = .versionHandled then 1 else 0) +
  (if t.commandRan || t.defaultRan then 1 else 0)

/-! Basic lemmas about the list and lookup primitives. -/

theorem lookup_key {set : FlagSet} {name : String} {p : String × FlagValue}
    (h : set.lookup name = some p) : p.1 = name := by
  have := List.find?_some h
  simpa [beq_iff_eq] using this

theorem args_tail_nil : Args.tail ([] : Args) = [] := by
  simp [Args.tail]

/-- C9: Tail on the empty sequence is empty, Tail on a singleton is empty (not
a singleton), Tail on two or more elements is everything after the first in
order, and Tail of ["a","b","c"] is ["b","c"]. -/
theorem args_tail_spec :
    (Args.tail ([] : Args) = []) ∧
    (∀ x : String, Args.tail ([x] : Args) = []) ∧
    (∀ (x y : String) (l : List String), Args.tail ((x :: y :: l : List String) : Args) = y :: l) ∧
    (Args.tail (["a", "b", "c"] : List String) = ["b", "c"]) := by
  refine ⟨by simp [Args.tail], fun x => by simp [Args.tail], fun x y l => ?_, by decide⟩
  have h2 : List.length (x :: y :: l) ≥ 2 := by
    simp only [List.length_cons]
    omega
  simp [Args.tail, h2]

/-- C10: Args.Get is safe exactly on non-negative indices: for n ≥ 0 it yields
the nth element when in range and the empty string otherwise, while for any
negative n the `len(a) > n` guard succeeds and the index expression panics
(modelled by none). -/
theorem args_get_safety (a : Args) (n : Int) :
    (0 ≤ n → Args.get a n = some ((a : List String).getD n.toNat "")) ∧
    (0 ≤ n → (List.length a : Int) ≤ n → Args.get a n = some "") ∧
    (n < 0 → Args.get a n = none) := by
  refine ⟨fun hn => ?_, fun hn hlen => ?_, fun hn => ?_⟩
  · by_cases hlt : (List.length a : Int) > n
    · simp [Args.get, hlt, hn]
    · have hge : (List.length a) ≤ n.toNat := by omega
      have hd : (a : List String).getD n.toNat "" = "" := by
        simp [List.getD_eq_getElem?_getD, List.getElem?_eq_none hge]
      rw [hd]
      simp [Args.get, hlt]
  · have hlt : ¬ ((List.length a : Int) > n) := by omega
    simp [Args.get, hlt]
  · have hlt : (List.length a : Int) > n := by
      have : (0 : Int) ≤ (List.length a : Int) := by positivity
      omega
    have hn' : ¬ (0 ≤ n) := by omega
    simp [Args.get, hlt, hn']

/-- Closed instance of args_get_safety: Get 1 of ["a","b"] is "b", Get 5 runs
off the end into "", and Get (-1) panics. -/
theorem args_get_safety_witness :
    Args.get (["a", "b"] : List String) 1 = some "b" ∧
    Args.get (["a", "b"] : List String) 5 = some "" ∧
    Args.get (["a", "b"] : List String) (-1) = none := by
  refine ⟨?_, ?_, ?_⟩
  · have h := (args_get_safety (["a", "b"] : List String) 1).1 (by decide)
    simpa using h
  · exact (args_get_safety (["a", "b"] : List String) 5).2.1 (by decide) (by decide)
  · exact (args_get_safety (["a", "b"] : List String) (-1)).2.2 (by decide)

/-- C8: IsSet answers from the visited names of the local flag set; the first
call on a fresh Context snapshots that table into the cache, and every later
call reads the cache, returning the same answer for the same name and leaving
the Context unchanged. -/
theorem isSet_spec :
    (∀ (s g : FlagSet) (name : String),
      ((NewContext s g).isSet name).1 = s.actual.contains name) ∧
    (∀ (c : Context) (name : String), c.setFlags = none →
      c.isSet name = (c.flagSet.actual.contains name,
        { c with setFlags := some c.flagSet.actual })) ∧
    (∀ (c : Context) (name : String) (m : List String), c.setFlags = some m →
      c.isSet name = (m.contains name, c)) ∧
    (∀ (c : Context) (n1 n2 : String),
      ((c.isSet n1).2.isSet n2).2 = (c.isSet n1).2) ∧
    (∀ (c : Context) (name : String),
      ((c.isSet name).2.isSet name).1 = (c.isSet name).1) := by
  refine ⟨fun s g name => rfl, fun c name h => ?_, fun c name m h => ?_,
    fun c n1 n2 => ?_, fun c name => ?_⟩
  · simp [Context.isSet, h]
  · simp [Context.isSet, h]
  · cases c with
    | mk fs gs sf => cases sf <;> simp [Context.isSet]
  · cases c with
    | mk fs gs sf => cases sf <;> simp [Context.isSet]

/-- Closed instance of isSet_spec: a fresh Context over a set whose "v" was
visited answers true for "v", false for "w", and the second call agrees. -/
theorem isSet_spec_witness :
    (((NewContext ⟨[], ["v"], []⟩ ⟨[], [], []⟩).isSet "v").1 = true) ∧
    ((NewContext ⟨[], ["v"], []⟩ ⟨[], [], []⟩).isSet "v" =
      (true, { NewContext ⟨[], ["v"], []⟩ ⟨[], [], []⟩ with setFlags := some ["v"] })) ∧
    ((((NewContext ⟨[], ["v"], []⟩ ⟨[], [], []⟩).isSet "w").2.isSet "w").1 = false) := by
  refine ⟨?_, ?_, ?_⟩
  · have h := isSet_spec.1 ⟨[], ["v"], []⟩ ⟨[], [], []⟩ "v"
    simpa using h
  · have h := isSet_spec.2.1 (NewContext ⟨[], ["v"], []⟩ ⟨[], [], []⟩) "v" rfl
    simpa using h
  · have h := isSet_spec.2.2.2.2 (NewContext ⟨[], ["v"], []⟩ ⟨[], [], []⟩) "w"
    simpa using h

/-- C4 counterexample: the claim that every typed accessor is total and never
raises is false — the string-slice and int-slice accessors type-assert the
stored value, and a declared flag of a different kind makes that assertion
panic (modelled by none): StringSlice on an int flag and IntSlice on a string
flag both panic. -/
theorem slice_accessor_kind_mismatch_panics :
    lookupStringSlice "n" ⟨[("n", FlagValue.intV 7)], [], []⟩ = none ∧
    lookupIntSlice "s" ⟨[("s", FlagValue.strV "x")], [], []⟩ = none ∧
    (NewContext ⟨[("n", FlagValue.intV 7)], [], []⟩ ⟨[], [], []⟩).stringSlice "n" = none := by
  decide

/-- C4 (amended): the non-slice accessors of Context are total; every accessor
returns the kind's zero value on a name with no flag in the scope, a malformed
stored value yields the kind's zero value (except BoolT, where a present flag
with unparseable text yields true), and the slice accessors return the stored
list when the declared kind matches but panic (none) when it does not. -/
theorem typed_accessor_zero_value :
    (∀ (set : FlagSet) (name : String), set.lookup name = none →
      lookupInt name set = 0 ∧ lookupFloat64 name set = 0 ∧
      lookupBool name set = false ∧ lookupBoolT name set = false ∧
      lookupString name set = "" ∧ lookupStringSlice name set = some [] ∧
      lookupIntSlice name set = some []) ∧
    (∀ (set : FlagSet) (name : String) (p : String × FlagValue), set.lookup name = some p →
      (goAtoi p.2.string = none → lookupInt name set = 0) ∧
      (goParseFloat p.2.string = none → lookupFloat64 name set = 0) ∧
      (goParseBool p.2.string = none → lookupBool name set = false) ∧
      (goParseBool p.2.string = none → lookupBoolT name set = true) ∧
      (lookupString name set = p.2.string) ∧
      (∀ l, p.2 = .strSliceV l → lookupStringSlice name set = some l) ∧
      ((∀ l, p.2 ≠ FlagValue.strSliceV l) → lookupStringSlice name set = none) ∧
      (∀ l, p.2 = .intSliceV l → lookupIntSlice name set = some l) ∧
      ((∀ l, p.2 ≠ FlagValue.intSliceV l) → lookupIntSlice name set = none)) ∧
    (∀ (c : Context) (name : String),
      c.int name = lookupInt name c.flagSet ∧
      c.float64 name = lookupFloat64 name c.flagSet ∧
      c.bool name = lookupBool name c.flagSet ∧
      c.boolT name = lookupBoolT name c.flagSet ∧
      c.string name = lookupString name c.flagSet ∧
      c.stringSlice name = lookupStringSlice name c.flagSet ∧
      c.intSlice name = lookupIntSlice name c.flagSet ∧
      c.globalInt name = lookupInt name c.globalSet ∧
      c.globalBool name = lookupBool name c.globalSet ∧
      c.globalString name = lookupString name c.globalSet ∧
      c.globalStringSlice name = lookupStringSlice name c.globalSet ∧
      c.globalIntSlice name = lookupIntSlice name c.globalSet) := by
  refine ⟨fun set name h => ?_, fun set name p h => ?_, fun c name => ?_⟩
  · simp [lookupInt, lookupFloat64, lookupBool, lookupBoolT, lookupString,
      lookupStringSlice, lookupIntSlice, h]
  · refine ⟨fun hm => ?_, fun hm => ?_, fun hm => ?_, fun hm => ?_, ?_,
      fun l hl => ?_, fun hl => ?_, fun l hl => ?_, fun hl => ?_⟩
    · simp [lookupInt, h, hm]
    · simp [lookupFloat64, h, hm]
    · simp [lookupBool, h, hm]
    · simp [lookupBoolT, h, hm]
    · simp [lookupString, h]
    · simp [lookupStringSlice, h, hl]
    · cases hv : p.2 <;>
        simp [lookupStringSlice, h, hv] <;> exact absurd hv (by simpa using hl _)
    · simp [lookupIntSlice, h, hl]
    · cases hv : p.2 <;>
        simp [lookupIntSlice, h, hv] <;> exact absurd hv (by simpa using hl _)
  · exact ⟨rfl, rfl, rfl, rfl, rfl, rfl, rfl, rfl, rfl, rfl, rfl, rfl⟩

/-- Closed instance of typed_accessor_zero_value on a set with one malformed
text flag and one string-slice flag. -/
theorem typed_accessor_zero_value_witness :
    lookupInt "missing" (⟨[("bad", FlagValue.strV "zz"), ("sl", FlagValue.strSliceV ["a"])], [], []⟩ : FlagSet) = 0 ∧
    lookupInt "bad" (⟨[("bad", FlagValue.strV "zz"), ("sl", FlagValue.strSliceV ["a"])], [], []⟩ : FlagSet) = 0 ∧
    lookupBoolT "bad" (⟨[("bad", FlagValue.strV "zz"), ("sl", FlagValue.strSliceV ["a"])], [], []⟩ : FlagSet) = true ∧
    lookupStringSlice "sl" (⟨[("bad", FlagValue.strV "zz"), ("sl", FlagValue.strSliceV ["a"])], [], []⟩ : FlagSet) = some ["a"] := by
  refine ⟨?_, ?_, ?_, ?_⟩
  · exact ((typed_accessor_zero_value.1 _ "missing" (by decide)).1)
  · exact ((typed_accessor_zero_value.2.1 _ "bad" ("bad", FlagValue.strV "zz") (by decide)).1 (by decide))
  · exact ((typed_accessor_zero_value.2.1 _ "bad" ("bad", FlagValue.strV "zz") (by decide)).2.2.2.1 (by decide))
  · exact ((typed_accessor_zero_value.2.1 _ "sl" ("sl", FlagValue.strSliceV ["a"]) (by decide)).2.2.2.2.2.1 ["a"] rfl)

/-- C6: when normalization reports a conflict, or the parser reported a syntax
error, App.Run renders application-level help and returns the underlying error,
and neither the Before hook nor any command handler nor the default action
runs (the conflict branch is checked first, so it wins when both fail). -/
theorem run_error_paths (a : App) (set0 : FlagSet) (perr : Option String) :
    (∀ e, (normalizeFlags a.flags set0).1 = some e →
      a.runFromParse set0 perr =
        { outcome := .normFailed e, helpRendered := true, beforeRan := false
          commandRan := false, defaultRan := false, returnedError := some e }) ∧
    (∀ e, (normalizeFlags a.flags set0).1 = none → perr = some e →
      a.runFromParse set0 perr =
        { outcome := .usageFailed e, helpRendered := true, beforeRan := false
          commandRan := false, defaultRan := false, returnedError := some e }) := by
  constructor
  · intro e h
    simp [App.runFromParse, h]
  · intro e h hp
    simp [App.runFromParse, h, hp]

/-- Closed instance of run_error_paths: a conflicting table makes the run
return the conflict error with help rendered, and a syntax error makes the
run return it with help rendered. -/
theorem run_error_paths_witness :
    (App.runFromParse ⟨"app", [], [GoFlag.stringFlag "foo, f" "" ""], none⟩
        ⟨[("foo", FlagValue.strV "1"), ("f", FlagValue.strV "2")], ["foo", "f"], []⟩ none) =
      { outcome := .normFailed "Cannot use two forms of the same flag: f foo"
        helpRendered := true, beforeRan := false, commandRan := false
        defaultRan := false
        returnedError := some "Cannot use two forms of the same flag: f foo" } ∧
    (App.runFromParse ⟨"app", [], [], none⟩ ⟨[], [], []⟩ (some "bad syntax")) =
      { outcome := .usageFailed "bad syntax", helpRendered := true, beforeRan := false
        commandRan := false, defaultRan := false
        returnedError := some "bad syntax" } := by
  constructor
  · exact (run_error_paths ⟨"app", [], [GoFlag.stringFlag "foo, f" "" ""], none⟩
      ⟨[("foo", FlagValue.strV "1"), ("f", FlagValue.strV "2")], ["foo", "f"], []⟩ none).1
      "Cannot use two forms of the same flag: f foo" (by decide)
  · exact (run_error_paths ⟨"app", [], [], none⟩ ⟨[], [], []⟩ (some "bad syntax")).2
      "bad syntax" (by decide) rfl

/-- C5 counterexample: the claim that exactly one of the terminal outcomes
help-handled, version-handled, or dispatched is reached in every
successful-normalization run is false — a run whose Before hook fails reaches
none of the three, even though normalization succeeded. -/
theorem before_hook_failure_reaches_no_terminal :
    (normalizeFlags (App.mk "app" [] [] (some fun _ => some "boom")).flags ⟨[], [], []⟩).1 = none ∧
    (App.runFromParse ⟨"app", [], [], some fun _ => some "boom"⟩ ⟨[], [], []⟩ none).outcome =
      .beforeFailed "boom" ∧
    RunTrace.terminalCount
      (App.runFromParse ⟨"app", [], [], some fun _ => some "boom"⟩ ⟨[], [], []⟩ none) = 0 := by
  refine ⟨rfl, rfl, rfl⟩

/-- C5 (amended): in every run that reaches the normalized state (no
normalization conflict, no parser syntax error), the help flag is checked
before the version flag, so help wins when both are set; if help or version is
set the run terminates successfully before the Before hook and before any
command or default action; at most one terminal outcome is reached, and
exactly one when the Before hook is absent or succeeds (a failing hook
reaches none). -/
theorem run_help_version_precedence (a : App) (set0 : FlagSet)
    (hn : (normalizeFlags a.flags set0).1 = none) :
    (lookupBool "help" (normalizeFlags a.flags set0).2 = true →
      a.runFromParse set0 none =
        { outcome := .helpHandled, helpRendered := true, beforeRan := false
          commandRan := false, defaultRan := false, returnedError := none }) ∧
    (lookupBool "help" (normalizeFlags a.flags set0).2 = false →
      lookupBool "version" (normalizeFlags a.flags set0).2 = true →
      a.runFromParse set0 none =
        { outcome := .versionHandled, helpRendered := false, beforeRan := false
          commandRan := false, defaultRan := false, returnedError := none }) ∧
    (RunTrace.terminalCount (a.runFromParse set0 none) ≤ 1) ∧
    ((∀ hk, a.before = some hk → hk (normalizeFlags a.flags set0).2 = none) →
      RunTrace.terminalCount (a.runFromParse set0 none) = 1) := by
  have hdispatch : ∀ (b : Bool),
      RunTrace.terminalCount (a.dispatch (normalizeFlags a.flags set0).2 b) = 1 := by
    intro b
    unfold App.dispatch
    by_cases hp : Args.present (NewContext (normalizeFlags a.flags set0).2
        (normalizeFlags a.flags set0).2).args
    · simp only [hp, if_true]
      cases hcmd : a.command ((Args.first (NewContext (normalizeFlags a.flags set0).2
          (normalizeFlags a.flags set0).2).args).getD "") with
      | none => simp [RunTrace.terminalCount]
      | some c => simp [RunTrace.terminalCount]
    · simp only [hp, if_false]
      simp [RunTrace.terminalCount]
  refine ⟨fun hh => ?_, fun hh hv => ?_, ?_, fun hhook => ?_⟩
  · simp [App.runFromParse, hn, checkHelp, Context.globalBool, NewContext, hh]
  · simp [App.runFromParse, hn, checkHelp, checkVersion, Context.globalBool, NewContext, hh, hv]
  · by_cases hh : lookupBool "help" (normalizeFlags a.flags set0).2 = true
    · simp [App.runFromParse, hn, checkHelp, Context.globalBool, NewContext, hh,
        RunTrace.terminalCount]
    · by_cases hv : lookupBool "version" (normalizeFlags a.flags set0).2 = true
      · simp [App.runFromParse, hn, checkHelp, checkVersion, Context.globalBool, NewContext,
          hh, hv, RunTrace.terminalCount]
      · cases hb : a.before with
        | none =>
          simp only [App.runFromParse, hn, checkHelp, checkVersion, Context.globalBool,
            NewContext, hh, hv, hb]
          simp [hdispatch false]
        | some hk =>
          cases hhk : hk (normalizeFlags a.flags set0).2 with
          | none =>
            simp only [App.runFromParse, hn, checkHelp, checkVersion, Context.globalBool,
              NewContext, hh, hv, hb, hhk]
            simp [hdispatch true]
          | some e =>
            simp [App.runFromParse, hn, checkHelp, checkVersion, Context.globalBool,
              NewContext, hh, hv, hb, hhk, RunTrace.terminalCount]
  · by_cases hh : lookupBool "help" (normalizeFlags a.flags set0).2 = true
    · simp [App.runFromParse, hn, checkHelp, Context.globalBool, NewContext, hh,
        RunTrace.terminalCount]
    · by_cases hv : lookupBool "version" (normalizeFlags a.flags set0).2 = true
      · simp [App.runFromParse, hn, checkHelp, checkVersion, Context.globalBool, NewContext,
          hh, hv, RunTrace.terminalCount]
      · cases hb : a.before with
        | none =>
          simp only [App.runFromParse, hn, checkHelp, checkVersion, Context.globalBool,
            NewContext, hh, hv, hb]
          simp [hdispatch false]
        | some hk =>
          have hhk := hhook hk hb
          simp only [App.runFromParse, hn, checkHelp, checkVersion, Context.globalBool,
            NewContext, hh, hv, hb, hhk]
          simp [hdispatch true]

/-- Closed instance of run_help_version_precedence: with both help and version
set, the run terminates in help-handled with no hook, command, or default
action run, and the terminal count is one. -/
theorem run_help_version_precedence_witness :
    App.runFromParse ⟨"app", [], [], none⟩
        ⟨[("help", FlagValue.boolV true), ("version", FlagValue.boolV true)], [], []⟩ none =
      { outcome := .helpHandled, helpRendered := true, beforeRan := false
        commandRan := false, defaultRan := false, returnedError := none } ∧
    RunTrace.terminalCount (App.runFromParse ⟨"app", [], [], none⟩
        ⟨[("help", FlagValue.boolV true), ("version", FlagValue.boolV true)], [], []⟩ none) = 1 := by
  constructor
  · exact (run_help_version_precedence ⟨"app", [], [], none⟩
      ⟨[("help", FlagValue.boolV true), ("version", FlagValue.boolV true)], [], []⟩
      (by decide)).1 (by decide)
  · exact (run_help_version_precedence ⟨"app", [], [], none⟩
      ⟨[("help", FlagValue.boolV true), ("version", FlagValue.boolV true)], [], []⟩
      (by decide)).2.2.2 (by intro hk h; cases h)

/-- C7 counterexample: the claim that a caller who pre-registered a flag named
"help, h" never causes a duplicate registration is false — hasFlag compares
whole flag values, so a pre-registered help flag with different usage text
does not suppress the implicit one, and two flags named "help, h" result. -/
theorem append_implicit_flag_duplicate :
    ((App.withImplicitFlags ⟨"app", [], [GoFlag.boolFlag "help, h" "custom"], none⟩).flags.countP
      fun f => f.getName == "help, h") = 2 := by
  decide

/-- Membership in the flag list is preserved by appendFlag. -/
theorem appendFlag_mem {a : App} {f : GoFlag} (g : GoFlag) (h : f ∈ a.flags) :
    f ∈ (a.appendFlag g).flags := by
  unfold App.appendFlag
  by_cases hg : a.hasFlag g
  · simpa [hg]
  · simp [hg, List.mem_append]
    exact Or.inl h

/-- The appended flag itself is always present afterwards. -/
theorem appendFlag_self (a : App) (f : GoFlag) : f ∈ (a.appendFlag f).flags := by
  unfold App.appendFlag
  by_cases hg : a.hasFlag f
  · have : f ∈ a.flags := by simpa [App.hasFlag] using hg
    simpa [hg]
  · simp [hg]

/-- C7 (amended): App.Run registers the two implicit boolean flags (version
first, then help) before parsing, and each is appended only when the identical
flag value (same kind, name, and usage text) is not already in the flag list —
so only a caller who pre-registered those exact flag values avoids a second
registration, while a flag merely sharing the name "help, h" or "version, v"
does not suppress the append. -/
theorem run_registers_implicit_flags (a : App) :
    (versionFlag ∈ (a.withImplicitFlags).flags ∧ helpFlag ∈ (a.withImplicitFlags).flags) ∧
    (versionFlag ∈ a.flags → helpFlag ∈ a.flags → (a.withImplicitFlags).flags = a.flags) ∧
    (∀ f : GoFlag, f ∉ a.flags → (a.appendFlag f).flags = a.flags ++ [f]) ∧
    (∀ f : GoFlag, f ∈ a.flags → (a.appendFlag f).flags = a.flags) ∧
    (∀ (parse : List GoFlag → List String → FlagSet × Option String) (arguments : List String),
      a.run parse arguments =
        (if (a.command helpCommand.name).isSome then a
         else { a with commands := a.commands ++ [helpCommand] }).withImplicitFlags.runFromParse
          (parse (if (a.command helpCommand.name).isSome then a
            else { a with commands := a.commands ++ [helpCommand] }).withImplicitFlags.flags
            (arguments.drop 1)).1
          (parse (if (a.command helpCommand.name).isSome then a
            else { a with commands := a.commands ++ [helpCommand] }).withImplicitFlags.flags
            (arguments.drop 1)).2) := by
  refine ⟨⟨?_, ?_⟩, fun hv hh => ?_, fun f hf => ?_, fun f hf => ?_, fun parse arguments => ?_⟩
  · exact appendFlag_mem helpFlag (appendFlag_self a versionFlag)
  · exact appendFlag_self (a.appendFlag versionFlag) helpFlag
  · have h1 : a.appendFlag versionFlag = a := by
      have : a.hasFlag versionFlag := by
        simpa [App.hasFlag] using hv
      simp [App.appendFlag, this]
    have h2 : a.hasFlag helpFlag := by
      simpa [App.hasFlag] using hh
    rw [App.withImplicitFlags, h1]
    simp [App.appendFlag, h2]
  · have : ¬ a.hasFlag f := by
      simpa [App.hasFlag] using hf
    simp [App.appendFlag, this]
  · have : a.hasFlag f := by
      simpa [App.hasFlag] using hf
    simp [App.appendFlag, this]
  · rfl

/-- Closed instance of run_registers_implicit_flags: pre-registering both
exact implicit flags leaves the flag list unchanged, and appending the help
flag to an app without it appends exactly one entry. -/
theorem run_registers_implicit_flags_witness :
    (App.withImplicitFlags ⟨"app", [], [versionFlag, helpFlag], none⟩).flags =
      [versionFlag, helpFlag] ∧
    (App.appendFlag ⟨"app", [], [], none⟩ helpFlag).flags = [helpFlag] := by
  constructor
  · exact (run_registers_implicit_flags ⟨"app", [], [versionFlag, helpFlag], none⟩).2.1
      (by decide) (by decide)
  · exact (run_registers_implicit_flags ⟨"app", [], [], none⟩).2.2.1 helpFlag (by decide)

/-! Roundtrip lemmas: rendering a value and parsing it back through the
modelled strconv routines recovers the value. -/

theorem charToDigit_digitChar {d : Nat} (h : d < 10) : charToDigit (digitChar d) = some d := by
  interval_cases d <;> decide

theorem digitChar_ne_minus {d : Nat} (h : d < 10) : (digitChar d == '-') = false := by
  interval_cases d <;> decide

theorem digitChar_ne_plus {d : Nat} (h : d < 10) : (digitChar d == '+') = false := by
  interval_cases d <;> decide

theorem natToCharsFuel_ne_nil {fuel n : Nat} (h : n < fuel) : natToCharsFuel fuel n ≠ [] := by
  cases fuel with
  | zero => omega
  | succ fuel =>
    unfold natToCharsFuel
    by_cases h10 : n < 10
    · simp [h10]
    · simp [h10]

theorem parseDigitsGo_append (l1 l2 : List Char) (acc : Nat) :
    parseDigitsGo (l1 ++ l2) acc =
      match parseDigitsGo l1 acc with
      | some a => parseDigitsGo l2 a
      | none => none := by
  induction l1 generalizing acc with
  | nil => simp [parseDigitsGo]
  | cons c cs ih =>
    simp only [List.cons_append, parseDigitsGo]
    cases charToDigit c with
    | none => rfl
    | some d => exact ih (acc * 10 + d)

theorem parseDigitsGo_natToCharsFuel {fuel : Nat} :
    ∀ {n : Nat}, n < fuel → ∀ acc : Nat,
      parseDigitsGo (natToCharsFuel fuel n) acc =
        some (acc * 10 ^ (natToCharsFuel fuel n).length + n) := by
  induction fuel with
  | zero => intro n h; omega
  | succ fuel ih =>
    intro n h acc
    by_cases h10 : n < 10
    · simp only [natToCharsFuel, h10, if_true]
      simp [parseDigitsGo, charToDigit_digitChar h10]
    · have hdiv : n / 10 < n := Nat.div_lt_self (by omega) (by omega)
      have hdivf : n / 10 < fuel := by omega
      simp only [natToCharsFuel, h10, if_false]
      rw [parseDigitsGo_append, ih hdivf acc]
      have hmod : n % 10 < 10 := Nat.mod_lt _ (by omega)
      simp only [parseDigitsGo, charToDigit_digitChar hmod]
      have hdm : 10 * (n / 10) + n % 10 = n := Nat.div_add_mod n 10
      congr 1
      rw [List.length_append, List.length_singleton, pow_succ]
      ring_nf
      omega

theorem parseNatChars_natToChars (n : Nat) : parseNatChars (natToChars n) = some n := by
  have hne := natToCharsFuel_ne_nil (show n < n + 1 by omega)
  have hp := parseDigitsGo_natToCharsFuel (show n < n + 1 by omega) 0
  unfold parseNatChars natToChars
  rw [if_neg (by simpa [List.isEmpty_iff] using hne)]
  simpa using hp

theorem natToChars_head_digit (n : Nat) :
    ∃ d rest, d < 10 ∧ natToChars n = digitChar d :: rest := by
  unfold natToChars
  generalize hf : n + 1 = fuel
  have h : n < fuel := by omega
  clear hf
  induction fuel generalizing n with
  | zero => omega
  | succ fuel ih =>
    by_cases h10 : n < 10
    · exact ⟨n, [], h10, by simp [natToCharsFuel, h10]⟩
    · have hdiv : n / 10 < n := Nat.div_lt_self (by omega) (by omega)
      obtain ⟨d, rest, hd, hrec⟩ := ih (n / 10) (by omega)
      exact ⟨d, rest ++ [digitChar (n % 10)], hd, by
        simp [natToCharsFuel, h10, hrec]⟩

theorem parseIntChars_intRepr (n : Int) : parseIntChars (intRepr n).data = some n := by
  by_cases hneg : n < 0
  · have : (intRepr n).data = '-' :: natToChars n.natAbs := by
      unfold intRepr
      rw [if_pos hneg]
    rw [this]
    simp only [parseIntChars, show (('-' : Char) == '-') = true from rfl, if_true]
    rw [parseNatChars_natToChars]
    simp [abs_of_neg hneg]
  · have hdata : (intRepr n).data = natToChars n.natAbs := by
      unfold intRepr
      rw [if_neg hneg]
    obtain ⟨d, rest, hd, hre⟩ := natToChars_head_digit n.natAbs
    rw [hdata, hre]
    simp only [parseIntChars, digitChar_ne_minus hd, digitChar_ne_plus hd,
      Bool.false_eq_true, if_false]
    rw [← hre, parseNatChars_natToChars]
    simp [abs_of_nonneg (show (0 : Int) ≤ n by omega)]

theorem goAtoi_intRepr {n : Int} (h1 : int64Min ≤ n) (h2 : n ≤ int64Max) :
    goAtoi (intRepr n) = some n := by
  simp [goAtoi, parseIntChars_intRepr, h1, h2]

theorem goParseBool_boolString (b : Bool) :
    goParseBool (FlagValue.boolV b).string = some b := by
  cases b <;> decide

theorem goAtoi_intSliceRepr (l : List Int) : goAtoi (intSliceRepr l) = none := by
  have hdata : (intSliceRepr l).data =
      '[' :: (joinSpace (l.map fun n => (intRepr n).data) ++ [']']) := rfl
  have hnone : parseIntChars (intSliceRepr l).data = none := by
    rw [hdata]
    simp only [parseIntChars, show (('[' : Char) == '-') = false from rfl,
      show (('[' : Char) == '+') = false from rfl, Bool.false_eq_true, if_false]
    simp [parseNatChars, parseDigitsGo, show charToDigit '[' = none from rfl]
  simp [goAtoi, hnone]

theorem setValue_roundtrip {c v : FlagValue} (hk : c.kind = v.kind)
    (hns1 : v.kind ≠ FlagKind.strSliceK) (hns2 : v.kind ≠ FlagKind.intSliceK)
    (hwf : v.wfB = true) : c.setValue v.string = some v := by
  cases v with
  | boolV b =>
    cases c <;> simp_all [FlagValue.kind]
    simp [FlagValue.setValue, goParseBool_boolString]
  | intV n =>
    cases c <;> simp_all [FlagValue.kind]
    have hb : int64Min ≤ n ∧ n ≤ int64Max := by
      simpa [FlagValue.wfB] using hwf
    simp [FlagValue.setValue, FlagValue.string, goAtoi_intRepr hb.1 hb.2]
  | floatV s =>
    cases c <;> simp_all [FlagValue.kind]
    have hs : (goParseFloat s).isSome = true := by
      simpa [FlagValue.wfB] using hwf
    obtain ⟨q, hq⟩ := Option.isSome_iff_exists.mp hs
    simp [FlagValue.setValue, FlagValue.string, hq]
  | strV s =>
    cases c <;> simp_all [FlagValue.kind]
    simp [FlagValue.setValue, FlagValue.string]
  | strSliceV l => simp [FlagValue.kind] at hns1
  | intSliceV l => simp [FlagValue.kind] at hns2

theorem setValue_intSlice_noop (l0 l : List Int) :
    (FlagValue.intSliceV l0).setValue (FlagValue.intSliceV l).string = none := by
  simp [FlagValue.setValue, FlagValue.string, goAtoi_intSliceRepr]

/-! Lemmas about the FlagSet primitives Lookup and Set. -/

theorem find?_update_ne (l : List (String × FlagValue)) (n m : String) (v2 : FlagValue)
    (h : m ≠ n) :
    (l.map fun q => if q.1 == n then (q.1, v2) else q).find? (fun p => p.1 == m) =
      l.find? (fun p => p.1 == m) := by
  induction l with
  | nil => rfl
  | cons q l ih =>
    simp only [List.map_cons]
    by_cases hqn : q.1 = n
    · have hif : (if q.1 == n then (q.1, v2) else q) = (q.1, v2) := by simp [hqn]
      rw [hif]
      have hm2 : (q.1 == m) = false := by
        rw [hqn]
        exact beq_eq_false_iff_ne.mpr (Ne.symm h)
      rw [List.find?_cons_of_neg _ (by simpa using hm2),
        List.find?_cons_of_neg _ (by simpa using hm2)]
      exact ih
    · have hif : (if q.1 == n then (q.1, v2) else q) = q := by simp [hqn]
      rw [hif]
      by_cases hqm : q.1 = m
      · rw [List.find?_cons_of_pos _ (by simp [hqm]), List.find?_cons_of_pos _ (by simp [hqm])]
      · rw [List.find?_cons_of_neg _ (by simp [hqm]), List.find?_cons_of_neg _ (by simp [hqm])]
        exact ih

theorem find?_update_self (l : List (String × FlagValue)) (n : String) (v2 : FlagValue)
    (h : (l.find? (fun p => p.1 == n)).isSome) :
    (l.map fun q => if q.1 == n then (q.1, v2) else q).find? (fun p => p.1 == n) =
      some (n, v2) := by
  induction l with
  | nil => simp [List.find?] at h
  | cons q l ih =>
    simp only [List.map_cons]
    by_cases hqn : q.1 = n
    · have hif : (if q.1 == n then (q.1, v2) else q) = (q.1, v2) := by simp [hqn]
      rw [hif, List.find?_cons_of_pos _ (by simp [hqn]), hqn]
    · have hif : (if q.1 == n then (q.1, v2) else q) = q := by simp [hqn]
      rw [hif, List.find?_cons_of_neg _ (by simp [hqn])]
      rw [List.find?_cons_of_neg _ (by simp [hqn])] at h
      exact ih h

theorem update_keys (l : List (String × FlagValue)) (n : String) (v2 : FlagValue) :
    (l.map fun q => if q.1 == n then (q.1, v2) else q).map Prod.fst = l.map Prod.fst := by
  induction l with
  | nil => rfl
  | cons q l ih =>
    simp only [List.map_cons]
    by_cases hqn : q.1 = n
    · have hif : (if q.1 == n then (q.1, v2) else q) = (q.1, v2) := by simp [hqn]
      rw [hif]
      simp only [List.map_cons, ih]
    · have hif : (if q.1 == n then (q.1, v2) else q) = q := by simp [hqn]
      rw [hif]
      simp only [List.map_cons, ih]

theorem setFlag_none {set : FlagSet} {n v : String} (h : set.lookup n = none) :
    set.setFlag n v = set := by
  simp only [FlagSet.setFlag, h]

theorem setFlag_fail {set : FlagSet} {n v : String} {p : String × FlagValue}
    (h : set.lookup n = some p) (h2 : p.2.setValue v = none) : set.setFlag n v = set := by
  simp only [FlagSet.setFlag, h, h2]

theorem setFlag_ok {set : FlagSet} {n v : String} {p : String × FlagValue} {v2 : FlagValue}
    (h : set.lookup n = some p) (h2 : p.2.setValue v = some v2) :
    set.setFlag n v =
      ⟨set.formal.map fun q => if q.1 == n then (q.1, v2) else q,
       if n ∈ set.actual then set.actual else set.actual ++ [n], set.args⟩ := by
  simp only [FlagSet.setFlag, h, h2]

theorem setFlag_keys (set : FlagSet) (n v : String) :
    (set.setFlag n v).formal.map Prod.fst = set.formal.map Prod.fst := by
  cases hl : set.lookup n with
  | none => rw [setFlag_none hl]
  | some p =>
    cases hs : p.2.setValue v with
    | none => rw [setFlag_fail hl hs]
    | some v2 => rw [setFlag_ok hl hs]; exact update_keys set.formal n v2

theorem setFlag_args (set : FlagSet) (n v : String) : (set.setFlag n v).args = set.args := by
  cases hl : set.lookup n with
  | none => rw [setFlag_none hl]
  | some p =>
    cases hs : p.2.setValue v with
    | none => rw [setFlag_fail hl hs]
    | some v2 => rw [setFlag_ok hl hs]

theorem setFlag_lookup_ne {set : FlagSet} {n m : String} (v : String) (h : m ≠ n) :
    (set.setFlag n v).lookup m = set.lookup m := by
  cases hl : set.lookup n with
  | none => rw [setFlag_none hl]
  | some p =>
    cases hs : p.2.setValue v with
    | none => rw [setFlag_fail hl hs]
    | some v2 =>
      rw [setFlag_ok hl hs]
      show List.find? _ _ = _
      exact find?_update_ne set.formal n m v2 h

theorem setFlag_actual_ne {set : FlagSet} {n m : String} (v : String) (h : m ≠ n) :
    m ∈ (set.setFlag n v).actual ↔ m ∈ set.actual := by
  cases hl : set.lookup n with
  | none => rw [setFlag_none hl]
  | some p =>
    cases hs : p.2.setValue v with
    | none => rw [setFlag_fail hl hs]
    | some v2 =>
      rw [setFlag_ok hl hs]
      by_cases hna : n ∈ set.actual
      · simp [hna]
      · simp [hna, h]

theorem setFlag_actual_mono {set : FlagSet} {n : String} {v : String} {m : String}
    (h : m ∈ set.actual) : m ∈ (set.setFlag n v).actual := by
  cases hl : set.lookup n with
  | none => rw [setFlag_none hl]; exact h
  | some p =>
    cases hs : p.2.setValue v with
    | none => rw [setFlag_fail hl hs]; exact h
    | some v2 =>
      rw [setFlag_ok hl hs]
      by_cases hna : n ∈ set.actual
      · simpa [hna] using h
      · simp only [hna, if_false]
        exact List.mem_append.mpr (Or.inl h)

theorem setFlag_success {set : FlagSet} {n : String} {c v2 : FlagValue} {val : String}
    (hl : set.lookup n = some (n, c)) (hs : c.setValue val = some v2) :
    (set.setFlag n val).lookup n = some (n, v2) ∧
    (∀ m, m ∈ (set.setFlag n val).actual ↔ m ∈ set.actual ∨ m = n) := by
  have hsome : (set.formal.find? (fun p => p.1 == n)).isSome := by
    unfold FlagSet.lookup at hl
    rw [hl]
    rfl
  rw [setFlag_ok hl hs]
  constructor
  · show List.find? _ _ = _
    exact find?_update_self set.formal n v2 hsome
  · intro m
    by_cases hna : n ∈ set.actual
    · simp only [hna, if_true]
      constructor
      · exact fun hm => Or.inl hm
      · rintro (hm | rfl)
        · exact hm
        · exact hna
    · simp only [hna, if_false]
      rw [List.mem_append]
      simp

theorem lookup_isSome_iff (set : FlagSet) (m : String) :
    (set.lookup m).isSome ↔ m ∈ set.formal.map Prod.fst := by
  unfold FlagSet.lookup
  rw [List.find?_isSome]
  constructor
  · rintro ⟨p, hp, hpm⟩
    exact List.mem_map.mpr ⟨p, hp, by simpa using hpm⟩
  · rintro hm
    obtain ⟨p, hp, hpm⟩ := List.mem_map.mp hm
    exact ⟨p, hp, by simp [hpm]⟩

/-! Lemmas about pickFF, the conflict-detection loop of normalizeFlags. -/

theorem countP_cons_contains (visited : List String) (p : String) (rest : List String) :
    (p :: rest).countP (fun n => visited.contains n) =
      rest.countP (fun n => visited.contains n) + (if visited.contains p = true then 1 else 0) := by
  rw [List.countP_cons]

theorem pickFF_no_visited {visited : List String} {set : FlagSet} {parts : List String}
    (h : parts.countP (fun n => visited.contains n) = 0) (ff : Option (String × FlagValue)) :
    pickFF visited set parts ff = .ok ff := by
  revert h
  induction parts with
  | nil => intro h; rfl
  | cons p rest ih =>
    intro h
    by_cases hc : visited.contains p = true
    · rw [countP_cons_contains, if_pos hc] at h
      omega
    · have hcf : visited.contains p = false := by
        cases hx : visited.contains p
        · rfl
        · exact absurd hx hc
      rw [countP_cons_contains, if_neg hc] at h
      simp only [pickFF, hcf, Bool.false_eq_true, if_false]
      exact ih (by omega)

theorem pickFF_one {visited : List String} {set : FlagSet} {parts : List String}
    (h : parts.countP (fun n => visited.contains n) = 1) :
    ∃ v, v ∈ parts ∧ visited.contains v = true ∧
      pickFF visited set parts none = .ok (set.lookup v) := by
  revert h
  induction parts with
  | nil => intro h; simp [List.countP_nil] at h
  | cons p rest ih =>
    intro h
    by_cases hc : visited.contains p = true
    · rw [countP_cons_contains, if_pos hc] at h
      have h0 : rest.countP (fun n => visited.contains n) = 0 := by omega
      refine ⟨p, List.mem_cons_self _ _, hc, ?_⟩
      simp only [pickFF, hc, if_true]
      exact pickFF_no_visited h0 (set.lookup p)
    · have hcf : visited.contains p = false := by
        cases hx : visited.contains p
        · rfl
        · exact absurd hx hc
      rw [countP_cons_contains, if_neg hc] at h
      obtain ⟨v, hv1, hv2, hv3⟩ := ih (by omega)
      refine ⟨v, List.mem_cons_of_mem _ hv1, hv2, ?_⟩
      simp only [pickFF, hcf, Bool.false_eq_true, if_false]
      exact hv3

theorem pickFF_le_one {visited : List String} {set : FlagSet} {parts : List String}
    (h : parts.countP (fun n => visited.contains n) ≤ 1) :
    ∃ r, pickFF visited set parts none = .ok r := by
  rcases Nat.le_one_iff_eq_zero_or_eq_one.mp h with h0 | h1
  · exact ⟨none, pickFF_no_visited h0 none⟩
  · obtain ⟨v, _, _, hv⟩ := pickFF_one h1
    exact ⟨set.lookup v, hv⟩

theorem pickFF_some_err {visited : List String} {set : FlagSet} {p : String × FlagValue}
    {parts : List String} (h : 1 ≤ parts.countP (fun n => visited.contains n)) :
    ∃ n2, n2 ∈ parts ∧ visited.contains n2 = true ∧
      pickFF visited set parts (some p) = .error (conflictMsg n2 p.1) := by
  revert h
  induction parts with
  | nil => intro h; simp [List.countP_nil] at h
  | cons q rest ih =>
    intro h
    by_cases hc : visited.contains q = true
    · exact ⟨q, List.mem_cons_self _ _, hc, by simp only [pickFF, hc, if_true]⟩
    · have hcf : visited.contains q = false := by
        cases hx : visited.contains q
        · rfl
        · exact absurd hx hc
      rw [countP_cons_contains, if_neg hc] at h
      obtain ⟨n2, h1, h2, h3⟩ := ih (by omega)
      refine ⟨n2, List.mem_cons_of_mem _ h1, h2, ?_⟩
      simp only [pickFF, hcf, Bool.false_eq_true, if_false]
      exact h3

theorem pickFF_conflict {visited : List String} {set : FlagSet} {parts : List String}
    (hnodup : parts.Nodup)
    (hcnt : 2 ≤ parts.countP (fun n => visited.contains n))
    (hlk : ∀ n ∈ parts, visited.contains n = true → (set.lookup n).isSome) :
    ∃ n1 n2, n1 ∈ parts ∧ n2 ∈ parts ∧ n1 ≠ n2 ∧ visited.contains n1 = true ∧
      visited.contains n2 = true ∧
      pickFF visited set parts none = .error (conflictMsg n2 n1) := by
  revert hnodup hcnt hlk
  induction parts with
  | nil => intro _ hcnt _; simp [List.countP_nil] at hcnt
  | cons q rest ih =>
    intro hnodup hcnt hlk
    by_cases hc : visited.contains q = true
    · have hq := hlk q (List.mem_cons_self _ _) hc
      obtain ⟨p, hp⟩ := Option.isSome_iff_exists.mp hq
      have hp1 : p.1 = q := lookup_key hp
      rw [countP_cons_contains, if_pos hc] at hcnt
      have hr : 1 ≤ rest.countP (fun n => visited.contains n) := by omega
      obtain ⟨n2, h1, h2, h3⟩ := @pickFF_some_err visited set p rest hr
      refine ⟨q, n2, List.mem_cons_self _ _, List.mem_cons_of_mem _ h1, ?_, hc, h2, ?_⟩
      · intro heq
        exact (List.nodup_cons.mp hnodup).1 (heq ▸ h1)
      · simp only [pickFF, hc, if_true, hp]
        rw [hp1] at h3
        exact h3
    · have hcf : visited.contains q = false := by
        cases hx : visited.contains q
        · rfl
        · exact absurd hx hc
      rcases List.nodup_cons.mp hnodup with ⟨hq, hnd⟩
      rw [countP_cons_contains, if_neg hc] at hcnt
      obtain ⟨n1, n2, a1, a2, a3, a4, a5, a6⟩ := ih hnd (by omega)
        (fun n hn hv => hlk n (List.mem_cons_of_mem _ hn) hv)
      refine ⟨n1, n2, List.mem_cons_of_mem _ a1, List.mem_cons_of_mem _ a2, a3, a4, a5, ?_⟩
      simp only [pickFF, hcf, Bool.false_eq_true, if_false]
      exact a6

/-! Lemmas about copyFlag and the copy loop copyAll. -/

theorem copyFlag_strSlice (name : String) (l : List String) (set : FlagSet) :
    copyFlag name (.strSliceV l) set = set := rfl

theorem copyFlag_eq_setFlag (name : String) (ff : FlagValue) (set : FlagSet)
    (h : ∀ l, ff ≠ FlagValue.strSliceV l) :
    copyFlag name ff set = set.setFlag name ff.string := by
  cases ff with
  | strSliceV l => exact absurd rfl (h l)
  | boolV b => rfl
  | intV n => rfl
  | floatV s => rfl
  | strV s => rfl
  | intSliceV l => rfl

theorem copyFlag_lookup_ne {name m : String} (hm : m ≠ name) (ff : FlagValue) (set : FlagSet) :
    (copyFlag name ff set).lookup m = set.lookup m := by
  cases ff with
  | strSliceV l => rfl
  | boolV b => exact setFlag_lookup_ne _ hm
  | intV n => exact setFlag_lookup_ne _ hm
  | floatV s => exact setFlag_lookup_ne _ hm
  | strV s => exact setFlag_lookup_ne _ hm
  | intSliceV l => exact setFlag_lookup_ne _ hm

theorem copyFlag_actual_ne {name m : String} (hm : m ≠ name) (ff : FlagValue) (set : FlagSet) :
    m ∈ (copyFlag name ff set).actual ↔ m ∈ set.actual := by
  cases ff with
  | strSliceV l => rfl
  | boolV b => exact setFlag_actual_ne _ hm
  | intV n => exact setFlag_actual_ne _ hm
  | floatV s => exact setFlag_actual_ne _ hm
  | strV s => exact setFlag_actual_ne _ hm
  | intSliceV l => exact setFlag_actual_ne _ hm

theorem copyFlag_actual_mono {name m : String} (ff : FlagValue) (set : FlagSet)
    (h : m ∈ set.actual) : m ∈ (copyFlag name ff set).actual := by
  cases ff with
  | strSliceV l => exact h
  | boolV b => exact setFlag_actual_mono h
  | intV n => exact setFlag_actual_mono h
  | floatV s => exact setFlag_actual_mono h
  | strV s => exact setFlag_actual_mono h
  | intSliceV l => exact setFlag_actual_mono h

theorem copyFlag_keys (name : String) (ff : FlagValue) (set : FlagSet) :
    (copyFlag name ff set).formal.map Prod.fst = set.formal.map Prod.fst := by
  cases ff with
  | strSliceV l => rfl
  | boolV b => exact setFlag_keys set name _
  | intV n => exact setFlag_keys set name _
  | floatV s => exact setFlag_keys set name _
  | strV s => exact setFlag_keys set name _
  | intSliceV l => exact setFlag_keys set name _

theorem copyFlag_args (name : String) (ff : FlagValue) (set : FlagSet) :
    (copyFlag name ff set).args = set.args := by
  cases ff with
  | strSliceV l => rfl
  | boolV b => exact setFlag_args set name _
  | intV n => exact setFlag_args set name _
  | floatV s => exact setFlag_args set name _
  | strV s => exact setFlag_args set name _
  | intSliceV l => exact setFlag_args set name _

theorem copyAll_cons (q : String) (rest visited : List String) (ff : FlagValue) (set : FlagSet) :
    copyAll (q :: rest) visited ff set =
      copyAll rest visited ff (if visited.contains q then set else copyFlag q ff set) := rfl

theorem copyAll_keys (parts visited : List String) (ff : FlagValue) (set : FlagSet) :
    (copyAll parts visited ff set).formal.map Prod.fst = set.formal.map Prod.fst := by
  induction parts generalizing set with
  | nil => rfl
  | cons q rest ih =>
    rw [copyAll_cons]
    by_cases hc : visited.contains q = true
    · rw [if_pos hc]
      exact ih set
    · rw [if_neg hc, ih (copyFlag q ff set), copyFlag_keys]

theorem copyAll_args (parts visited : List String) (ff : FlagValue) (set : FlagSet) :
    (copyAll parts visited ff set).args = set.args := by
  induction parts generalizing set with
  | nil => rfl
  | cons q rest ih =>
    rw [copyAll_cons]
    by_cases hc : visited.contains q = true
    · rw [if_pos hc]
      exact ih set
    · rw [if_neg hc, ih (copyFlag q ff set), copyFlag_args]

theorem copyAll_frame {parts : List String} (visited : List String) (ff : FlagValue)
    (set : FlagSet) {m : String} (hm : m ∉ parts) :
    (copyAll parts visited ff set).lookup m = set.lookup m ∧
    (m ∈ (copyAll parts visited ff set).actual ↔ m ∈ set.actual) := by
  induction parts generalizing set with
  | nil => exact ⟨rfl, Iff.rfl⟩
  | cons q rest ih =>
    have hmq : m ≠ q := fun h => hm (h ▸ List.mem_cons_self q rest)
    have hmr : m ∉ rest := fun h => hm (List.mem_cons_of_mem _ h)
    rw [copyAll_cons]
    by_cases hc : visited.contains q = true
    · rw [if_pos hc]
      exact ih set hmr
    · rw [if_neg hc]
      obtain ⟨ih1, ih2⟩ := ih (copyFlag q ff set) hmr
      exact ⟨ih1.trans (copyFlag_lookup_ne hmq ff set),
        ih2.trans (copyFlag_actual_ne hmq ff set)⟩

theorem copyAll_actual_mono {parts visited : List String} {ff : FlagValue} {set : FlagSet}
    {m : String} (h : m ∈ set.actual) : m ∈ (copyAll parts visited ff set).actual := by
  induction parts generalizing set with
  | nil => exact h
  | cons q rest ih =>
    rw [copyAll_cons]
    by_cases hc : visited.contains q = true
    · rw [if_pos hc]
      exact ih h
    · rw [if_neg hc]
      exact ih (copyFlag_actual_mono ff set h)

theorem copyAll_strSlice_noop (parts visited : List String) (l : List String) (set : FlagSet) :
    copyAll parts visited (.strSliceV l) set = set := by
  induction parts generalizing set with
  | nil => rfl
  | cons q rest ih =>
    rw [copyAll_cons]
    by_cases hc : visited.contains q = true
    · rw [if_pos hc]
      exact ih set
    · rw [if_neg hc, copyFlag_strSlice]
      exact ih set

theorem copyAll_intSlice_noop {parts visited : List String} {l : List Int} {set : FlagSet}
    (hcells : ∀ b ∈ parts, ∀ p, set.lookup b = some p → p.2.kind = FlagKind.intSliceK) :
    copyAll parts visited (.intSliceV l) set = set := by
  induction parts with
  | nil => rfl
  | cons q rest ih =>
    have hq : copyFlag q (.intSliceV l) set = set := by
      rw [copyFlag_eq_setFlag _ _ _ (fun l2 h => by cases h)]
      cases hl : set.lookup q with
      | none => exact setFlag_none hl
      | some p =>
        have hk := hcells q (List.mem_cons_self _ _) p hl
        cases hv : p.2 with
        | intSliceV l0 =>
          refine setFlag_fail hl ?_
          rw [hv]
          exact setValue_intSlice_noop l0 l
        | boolV b => rw [hv] at hk; cases hk
        | intV n => rw [hv] at hk; cases hk
        | floatV s => rw [hv] at hk; cases hk
        | strV s => rw [hv] at hk; cases hk
        | strSliceV l0 => rw [hv] at hk; cases hk
    rw [copyAll_cons]
    by_cases hc : visited.contains q = true
    · rw [if_pos hc]
      exact ih (fun b hb => hcells b (List.mem_cons_of_mem _ hb))
    · rw [if_neg hc, hq]
      exact ih (fun b hb => hcells b (List.mem_cons_of_mem _ hb))

theorem copyAll_spec {parts visited : List String} {ff : FlagValue} {set : FlagSet}
    (hnodup : parts.Nodup)
    (hns2 : ff.kind ≠ FlagKind.strSliceK) (hns3 : ff.kind ≠ FlagKind.intSliceK)
    (hwf : ff.wfB = true)
    (hcells : ∀ b ∈ parts, visited.contains b = false →
      ∃ cb, set.lookup b = some (b, cb) ∧ cb.kind = ff.kind) :
    (∀ m, m ∉ parts → (copyAll parts visited ff set).lookup m = set.lookup m) ∧
    (∀ m ∈ parts, visited.contains m = true →
      (copyAll parts visited ff set).lookup m = set.lookup m) ∧
    (∀ b ∈ parts, visited.contains b = false →
      (copyAll parts visited ff set).lookup b = some (b, ff)) ∧
    (∀ m, m ∈ (copyAll parts visited ff set).actual ↔
      m ∈ set.actual ∨ (m ∈ parts ∧ visited.contains m = false)) := by
  have hns : ∀ l, ff ≠ FlagValue.strSliceV l := by
    intro l h
    rw [h] at hns2
    exact hns2 rfl
  induction parts generalizing set with
  | nil =>
    refine ⟨fun m _ => rfl, fun m hm => absurd hm (List.not_mem_nil m), fun b hb => absurd hb (List.not_mem_nil b), fun m => ?_⟩
    rw [show copyAll ([] : List String) visited ff set = set from rfl]
    simp
  | cons q rest ih =>
    rcases List.nodup_cons.mp hnodup with ⟨hqr, hndr⟩
    by_cases hc : visited.contains q = true
    · rw [copyAll_cons, if_pos hc]
      obtain ⟨ih1, ih2, ih3, ih4⟩ := ih hndr
        (fun b hb hv => hcells b (List.mem_cons_of_mem _ hb) hv)
      refine ⟨fun m hm => ih1 m (fun h => hm (List.mem_cons_of_mem _ h)), fun m hm hv => ?_,
        fun b hb hv => ?_, fun m => ?_⟩
      · rcases List.mem_cons.mp hm with rfl | hm
        · exact ih1 m hqr
        · exact ih2 m hm hv
      · rcases List.mem_cons.mp hb with rfl | hb
        · rw [hc] at hv; cases hv
        · exact ih3 b hb hv
      · rw [ih4 m]
        constructor
        · rintro (h | ⟨h1, h2⟩)
          · exact Or.inl h
          · exact Or.inr ⟨List.mem_cons_of_mem _ h1, h2⟩
        · rintro (h | ⟨h1, h2⟩)
          · exact Or.inl h
          · rcases List.mem_cons.mp h1 with rfl | h1
            · rw [hc] at h2; cases h2
            · exact Or.inr ⟨h1, h2⟩
    · have hcf : visited.contains q = false := by
        cases hx : visited.contains q
        · rfl
        · exact absurd hx hc
      obtain ⟨cq, hcq, hcqk⟩ := hcells q (List.mem_cons_self _ _) hcf
      have hset : cq.setValue ff.string = some ff :=
        setValue_roundtrip hcqk hns2 hns3 hwf
      have hcopy : copyFlag q ff set = set.setFlag q ff.string :=
        copyFlag_eq_setFlag _ _ _ hns
      obtain ⟨hs1, hs2⟩ := setFlag_success hcq hset
      rw [copyAll_cons, if_neg hc, hcopy]
      have hcells2 : ∀ b ∈ rest, visited.contains b = false →
          ∃ cb, (set.setFlag q ff.string).lookup b = some (b, cb) ∧ cb.kind = ff.kind := by
        intro b hb hv
        obtain ⟨cb, hcb, hcbk⟩ := hcells b (List.mem_cons_of_mem _ hb) hv
        have hbq : b ≠ q := fun h => hqr (h ▸ hb)
        exact ⟨cb, (setFlag_lookup_ne _ hbq).trans hcb, hcbk⟩
      obtain ⟨ih1, ih2, ih3, ih4⟩ := ih hndr hcells2
      refine ⟨fun m hm => ?_, fun m hm hv => ?_, fun b hb hv => ?_, fun m => ?_⟩
      · have hmq : m ≠ q := fun h => hm (h ▸ List.mem_cons_self q rest)
        have hmr : m ∉ rest := fun h => hm (List.mem_cons_of_mem _ h)
        rw [ih1 m hmr]
        exact setFlag_lookup_ne _ hmq
      · have hmq : m ≠ q := by
          rintro rfl
          rw [hcf] at hv
          exact Bool.noConfusion hv
        rcases List.mem_cons.mp hm with rfl | hm
        · exact absurd rfl hmq
        · rw [ih2 m hm hv]
          exact setFlag_lookup_ne _ hmq
      · rcases List.mem_cons.mp hb with rfl | hb
        · rw [ih1 b hqr]
          exact hs1
        · exact ih3 b hb hv
      · rw [ih4 m, hs2 m]
        constructor
        · rintro ((h | rfl) | ⟨h1, h2⟩)
          · exact Or.inl h
          · exact Or.inr ⟨List.mem_cons_self _ _, hcf⟩
          · exact Or.inr ⟨List.mem_cons_of_mem _ h1, h2⟩
        · rintro (h | ⟨h1, h2⟩)
          · exact Or.inl (Or.inl h)
          · rcases List.mem_cons.mp h1 with rfl | h1
            · exact Or.inl (Or.inr rfl)
            · exact Or.inr ⟨h1, h2⟩

/-! Lemmas about normalizeStep (one outer-loop iteration) and normGo. -/

theorem countP_one_unique {l : List String} {p : String → Bool} (hnd : l.Nodup)
    (h : l.countP p = 1) {a b : String} (ha : a ∈ l) (hb : b ∈ l)
    (hpa : p a = true) (hpb : p b = true) : a = b := by
  by_contra hab
  have hfa : a ∈ l.filter p := List.mem_filter.mpr ⟨ha, hpa⟩
  have hfb : b ∈ l.filter p := List.mem_filter.mpr ⟨hb, hpb⟩
  obtain ⟨pre, post, hsplit⟩ := List.append_of_mem hfa
  have hlen : (l.filter p).length = 1 := by
    rw [← List.countP_eq_length_filter]
    exact h
  rw [hsplit] at hfb hlen
  rcases List.mem_append.mp hfb with hbp | hbp
  · rw [List.length_append, List.length_cons] at hlen
    have := List.length_pos.mpr (List.ne_nil_of_mem hbp)
    omega
  · rcases List.mem_cons.mp hbp with hba | hbp
    · exact hab hba.symm
    · rw [List.length_append, List.length_cons] at hlen
      have := List.length_pos.mpr (List.ne_nil_of_mem hbp)
      omega

theorem normalizeStep_singleton {visited : List String} {set : FlagSet} {f : GoFlag}
    (h : f.parts.length = 1) : normalizeStep visited set f = .ok set := by
  unfold normalizeStep
  simp [h]

theorem normalizeStep_zero {visited : List String} {set : FlagSet} {f : GoFlag}
    (h : visitedCount visited f = 0) : normalizeStep visited set f = .ok set := by
  unfold normalizeStep
  by_cases hlen : f.parts.length == 1
  · simp [hlen]
  · simp only [hlen, Bool.false_eq_true, if_false]
    rw [pickFF_no_visited h none]

theorem normalizeStep_ok {visited : List String} {set : FlagSet} {f : GoFlag}
    (h : visitedCount visited f ≤ 1) : ∃ set2, normalizeStep visited set f = .ok set2 := by
  unfold normalizeStep
  by_cases hlen : f.parts.length == 1
  · exact ⟨set, by simp [hlen]⟩
  · obtain ⟨r, hr⟩ := @pickFF_le_one visited set f.parts h
    cases r with
    | none => exact ⟨set, by simp only [hlen, Bool.false_eq_true, if_false]; rw [hr]⟩
    | some ffp =>
      exact ⟨copyAll f.parts visited ffp.2 set, by
        simp only [hlen, Bool.false_eq_true, if_false]
        rw [hr]⟩

theorem normalizeStep_ok_frame {visited : List String} {set set2 : FlagSet} {f : GoFlag}
    (h : normalizeStep visited set f = .ok set2) :
    (∀ m, m ∉ f.parts → (set2.lookup m = set.lookup m ∧ (m ∈ set2.actual ↔ m ∈ set.actual))) ∧
    set2.formal.map Prod.fst = set.formal.map Prod.fst ∧
    set2.args = set.args ∧
    (∀ m, m ∈ set.actual → m ∈ set2.actual) := by
  unfold normalizeStep at h
  by_cases hlen : f.parts.length == 1
  · simp only [hlen, if_true] at h
    cases h
    exact ⟨fun m _ => ⟨rfl, Iff.rfl⟩, rfl, rfl, fun m hm => hm⟩
  · simp only [hlen, Bool.false_eq_true, if_false] at h
    cases hpf : pickFF visited set f.parts none with
    | error e => rw [hpf] at h; cases h
    | ok r =>
      rw [hpf] at h
      cases r with
      | none =>
        cases h
        exact ⟨fun m _ => ⟨rfl, Iff.rfl⟩, rfl, rfl, fun m hm => hm⟩
      | some ffp =>
        cases h
        exact ⟨fun m hm => copyAll_frame visited ffp.2 set hm,
          copyAll_keys _ _ _ _, copyAll_args _ _ _ _,
          fun m hm => copyAll_actual_mono hm⟩

theorem normalizeStep_id {visited : List String} {set : FlagSet} {g : GoFlag}
    (hcellsg : ∀ n ∈ g.parts, ∃ v, set.lookup n = some (n, v) ∧ v.kind = g.cellKind ∧ v.wfB = true)
    (hcnt : visitedCount visited g ≤ 1)
    (hskip : g.parts.length = 1 ∨ visitedCount visited g = 0 ∨
      g.cellKind = FlagKind.strSliceK ∨ g.cellKind = FlagKind.intSliceK) :
    normalizeStep visited set g = .ok set := by
  rcases hskip with h | h | h | h
  · exact normalizeStep_singleton h
  · exact normalizeStep_zero h
  all_goals {
    by_cases hlen : g.parts.length == 1
    · exact normalizeStep_singleton (by simpa using hlen)
    · rcases Nat.le_one_iff_eq_zero_or_eq_one.mp hcnt with h0 | h1
      · exact normalizeStep_zero h0
      · obtain ⟨v, hv1, hv2, hv3⟩ := @pickFF_one visited set g.parts h1
        obtain ⟨w, hw1, hw2, hw3⟩ := hcellsg v hv1
        unfold normalizeStep
        simp only [hlen, Bool.false_eq_true, if_false]
        rw [hv3, hw1]
        cases hww : w with
        | strSliceV l =>
          show Except.ok (copyAll g.parts visited (FlagValue.strSliceV l) set) = Except.ok set
          rw [copyAll_strSlice_noop]
        | intSliceV l =>
          have hck : g.cellKind = FlagKind.intSliceK := by
            rw [← hw2, hww]
            rfl
          show Except.ok (copyAll g.parts visited (FlagValue.intSliceV l) set) = Except.ok set
          rw [copyAll_intSlice_noop (fun b hb p hp => ?_)]
          obtain ⟨vb, hvb1, hvb2, hvb3⟩ := hcellsg b hb
          rw [hvb1] at hp
          cases hp
          rw [hvb2, hck]
        | boolV b2 =>
          rw [hww] at hw2
          simp [FlagValue.kind, h] at hw2
        | intV n2 =>
          rw [hww] at hw2
          simp [FlagValue.kind, h] at hw2
        | floatV s2 =>
          rw [hww] at hw2
          simp [FlagValue.kind, h] at hw2
        | strV s2 =>
          rw [hww] at hw2
          simp [FlagValue.kind, h] at hw2
  }

theorem normalizeStep_copy {visited : List String} {set : FlagSet} {g : GoFlag}
    (hgnd : g.parts.Nodup)
    (hcellsg : ∀ n ∈ g.parts, ∃ v, set.lookup n = some (n, v) ∧ v.kind = g.cellKind ∧ v.wfB = true)
    (h1 : visitedCount visited g = 1) (hlen : g.parts.length ≠ 1)
    (hns1 : g.cellKind ≠ FlagKind.strSliceK) (hns2 : g.cellKind ≠ FlagKind.intSliceK) :
    ∃ v w, v ∈ g.parts ∧ visited.contains v = true ∧ set.lookup v = some (v, w) ∧
      w.kind = g.cellKind ∧
      normalizeStep visited set g = .ok (copyAll g.parts visited w set) ∧
      (∀ b ∈ g.parts, (copyAll g.parts visited w set).lookup b = some (b, w)) ∧
      (∀ b ∈ g.parts, visited.contains b = false → b ∈ (copyAll g.parts visited w set).actual) := by
  obtain ⟨v, hv1, hv2, hv3⟩ := @pickFF_one visited set g.parts h1
  obtain ⟨w, hw1, hw2, hw3⟩ := hcellsg v hv1
  have hwns1 : w.kind ≠ FlagKind.strSliceK := by rw [hw2]; exact hns1
  have hwns2 : w.kind ≠ FlagKind.intSliceK := by rw [hw2]; exact hns2
  have hcells2 : ∀ b ∈ g.parts, visited.contains b = false →
      ∃ cb, set.lookup b = some (b, cb) ∧ cb.kind = w.kind := by
    intro b hb hv
    obtain ⟨cb, hcb1, hcb2, hcb3⟩ := hcellsg b hb
    exact ⟨cb, hcb1, by rw [hcb2, hw2]⟩
  obtain ⟨ca1, ca2, ca3, ca4⟩ := copyAll_spec hgnd hwns1 hwns2 hw3 hcells2
  refine ⟨v, w, hv1, hv2, hw1, hw2, ?_, fun b hb => ?_, fun b hb hbv => ?_⟩
  · unfold normalizeStep
    have hlenb : (g.parts.length == 1) = false := by
      simpa using hlen
    simp only [hlenb, Bool.false_eq_true, if_false]
    rw [hv3, hw1]
  · by_cases hbv : visited.contains b = true
    · have hbveq : b = v := countP_one_unique hgnd h1 hb hv1 hbv hv2
      rw [ca2 b hb hbv, hbveq, hw1]
    · have hbvf : visited.contains b = false := by
        cases hx : visited.contains b
        · rfl
        · exact absurd hx hbv
      exact ca3 b hb hbvf
  · exact (ca4 b).mpr (Or.inr ⟨hb, hbv⟩)

theorem normGo_cons (visited : List String) (f : GoFlag) (rest : List GoFlag) (set : FlagSet) :
    normGo visited (f :: rest) set =
      match normalizeStep visited set f with
      | .error e => (some e, set)
      | .ok set2 => normGo visited rest set2 := rfl

theorem partsNames_cons (f : GoFlag) (rest : List GoFlag) :
    partsNames (f :: rest) = f.parts ++ partsNames rest := by
  simp [partsNames]

theorem normGo_ok {visited : List String} {flags : List GoFlag} {set : FlagSet}
    (h : ∀ f ∈ flags, visitedCount visited f ≤ 1) :
    (normGo visited flags set).1 = none := by
  induction flags generalizing set with
  | nil => rfl
  | cons g rest ih =>
    obtain ⟨set2, hstep⟩ := normalizeStep_ok (h g (List.mem_cons_self _ _))
    rw [normGo_cons, hstep]
    exact ih (fun f hf => h f (List.mem_cons_of_mem _ hf))

theorem normGo_frame {visited : List String} {flags : List GoFlag} {set : FlagSet}
    {m : String} (hm : m ∉ partsNames flags) :
    (normGo visited flags set).2.lookup m = set.lookup m ∧
    (m ∈ (normGo visited flags set).2.actual ↔ m ∈ set.actual) := by
  induction flags generalizing set with
  | nil => exact ⟨rfl, Iff.rfl⟩
  | cons g rest ih =>
    rw [partsNames_cons] at hm
    have hmg : m ∉ g.parts := fun h => hm (List.mem_append.mpr (Or.inl h))
    have hmr : m ∉ partsNames rest := fun h => hm (List.mem_append.mpr (Or.inr h))
    rw [normGo_cons]
    cases hstep : normalizeStep visited set g with
    | error e => exact ⟨rfl, Iff.rfl⟩
    | ok set2 =>
      obtain ⟨hf, _, _, _⟩ := normalizeStep_ok_frame hstep
      obtain ⟨hf1, hf2⟩ := hf m hmg
      obtain ⟨ih1, ih2⟩ := show (normGo visited rest set2).2.lookup m = set2.lookup m ∧
          (m ∈ (normGo visited rest set2).2.actual ↔ m ∈ set2.actual) from ih hmr
      exact ⟨ih1.trans hf1, ih2.trans hf2⟩

theorem normGo_keys {visited : List String} {flags : List GoFlag} {set : FlagSet} :
    (normGo visited flags set).2.formal.map Prod.fst = set.formal.map Prod.fst := by
  induction flags generalizing set with
  | nil => rfl
  | cons g rest ih =>
    rw [normGo_cons]
    cases hstep : normalizeStep visited set g with
    | error e => rfl
    | ok set2 =>
      obtain ⟨_, hk, _, _⟩ := normalizeStep_ok_frame hstep
      exact (show List.map Prod.fst (normGo visited rest set2).2.formal =
          List.map Prod.fst set2.formal from ih).trans hk

theorem normGo_args {visited : List String} {flags : List GoFlag} {set : FlagSet} :
    (normGo visited flags set).2.args = set.args := by
  induction flags generalizing set with
  | nil => rfl
  | cons g rest ih =>
    rw [normGo_cons]
    cases hstep : normalizeStep visited set g with
    | error e => rfl
    | ok set2 =>
      obtain ⟨_, _, ha, _⟩ := normalizeStep_ok_frame hstep
      exact (show (normGo visited rest set2).2.args = set2.args from ih).trans ha

theorem normGo_actual_mono {visited : List String} {flags : List GoFlag} {set : FlagSet}
    {m : String} (hm : m ∈ set.actual) : m ∈ (normGo visited flags set).2.actual := by
  induction flags generalizing set with
  | nil => exact hm
  | cons g rest ih =>
    rw [normGo_cons]
    cases hstep : normalizeStep visited set g with
    | error e => exact hm
    | ok set2 =>
      obtain ⟨_, _, _, hmono⟩ := normalizeStep_ok_frame hstep
      exact ih (hmono m hm)

theorem normGo_spec {visited : List String} {flags : List GoFlag} {set : FlagSet}
    (hnd : (partsNames flags).Nodup)
    (hcells : ∀ f ∈ flags, ∀ n ∈ f.parts,
      ∃ v, set.lookup n = some (n, v) ∧ v.kind = f.cellKind ∧ v.wfB = true)
    (hcnt : ∀ f ∈ flags, visitedCount visited f ≤ 1) :
    (normGo visited flags set).1 = none ∧
    (∀ f ∈ flags,
      ((f.parts.length = 1 ∨ visitedCount visited f = 0 ∨
        f.cellKind = FlagKind.strSliceK ∨ f.cellKind = FlagKind.intSliceK) →
        ∀ n ∈ f.parts, (normGo visited flags set).2.lookup n = set.lookup n) ∧
      (f.cellKind ≠ FlagKind.strSliceK → f.cellKind ≠ FlagKind.intSliceK →
        f.parts.length ≠ 1 → visitedCount visited f = 1 →
        ∃ v w, v ∈ f.parts ∧ visited.contains v = true ∧ set.lookup v = some (v, w) ∧
          w.kind = f.cellKind ∧
          (∀ b ∈ f.parts, (normGo visited flags set).2.lookup b = some (b, w)) ∧
          (∀ b ∈ f.parts, visited.contains b = false →
            b ∈ (normGo visited flags set).2.actual))) := by
  induction flags generalizing set with
  | nil => exact ⟨rfl, fun f hf => absurd hf (List.not_mem_nil f)⟩
  | cons g rest ih =>
    rw [partsNames_cons] at hnd
    obtain ⟨hndg, hndr, hdisj⟩ := List.nodup_append.mp hnd
    have hcellsg := hcells g (List.mem_cons_self _ _)
    have hcntg := hcnt g (List.mem_cons_self _ _)
    obtain ⟨set2, hstep⟩ := normalizeStep_ok hcntg
    obtain ⟨hframe, hkeys, hargs, hmono⟩ := normalizeStep_ok_frame hstep
    have hcells2 : ∀ f ∈ rest, ∀ n ∈ f.parts,
        ∃ v, set2.lookup n = some (n, v) ∧ v.kind = f.cellKind ∧ v.wfB = true := by
      intro f hf n hn
      have hng : n ∉ g.parts := by
        intro hng
        exact hdisj hng (by
          unfold partsNames
          exact List.mem_flatten.mpr ⟨f.parts, List.mem_map.mpr ⟨f, hf, rfl⟩, hn⟩)
      obtain ⟨v, hv1, hv2, hv3⟩ := hcells f (List.mem_cons_of_mem _ hf) n hn
      exact ⟨v, ((hframe n hng).1).trans hv1, hv2, hv3⟩
    obtain ⟨ih1, ih2⟩ := ih hndr hcells2 (fun f hf => hcnt f (List.mem_cons_of_mem _ hf))
    have hres : normGo visited (g :: rest) set = normGo visited rest set2 := by
      rw [normGo_cons, hstep]
    refine ⟨by rw [hres]; exact ih1, fun f hf => ?_⟩
    rcases List.mem_cons.mp hf with rfl | hf
    · -- the flag g itself
      constructor
      · intro hskip n hn
        have hid := normalizeStep_id hcellsg hcntg hskip
        rw [hid] at hstep
        injection hstep with hset2
        have hnr : n ∉ partsNames rest := fun h => hdisj hn h
        rw [hres, ← hset2]
        exact (normGo_frame hnr).1
      · intro hns1 hns2 hlen h1
        obtain ⟨v, w, hv1, hv2, hv3, hv4, hcopyeq, hcopy1, hcopy2⟩ :=
          normalizeStep_copy hndg hcellsg h1 hlen hns1 hns2
        rw [hcopyeq] at hstep
        injection hstep with hset2
        refine ⟨v, w, hv1, hv2, hv3, hv4, fun b hb => ?_, fun b hb hbv => ?_⟩
        · have hbr : b ∉ partsNames rest := fun h => hdisj hb h
          rw [hres, (normGo_frame hbr).1, ← hset2]
          exact hcopy1 b hb
        · rw [hres, ← hset2]
          exact normGo_actual_mono (hcopy2 b hb hbv)
    · -- a later flag
      obtain ⟨ihA, ihB⟩ := ih2 f hf
      have htrans : ∀ n ∈ f.parts, set2.lookup n = set.lookup n := by
        intro n hn
        have hng : n ∉ g.parts := by
          intro hng
          exact hdisj hng (by
            unfold partsNames
            exact List.mem_flatten.mpr ⟨f.parts, List.mem_map.mpr ⟨f, hf, rfl⟩, hn⟩)
        exact (hframe n hng).1
      constructor
      · intro hskip n hn
        rw [hres, ihA hskip n hn]
        exact htrans n hn
      · intro hns1 hns2 hlen h1
        obtain ⟨v, w, hv1, hv2, hv3, hv4, hB1, hB2⟩ := ihB hns1 hns2 hlen h1
        refine ⟨v, w, hv1, hv2, (htrans v hv1).symm.trans hv3, hv4, fun b hb => ?_,
          fun b hb hbv => ?_⟩
        · rw [hres]
          exact hB1 b hb
        · rw [hres]
          exact hB2 b hb hbv

theorem normGo_id {visited : List String} {flags : List GoFlag} {set : FlagSet}
    (hcells : ∀ f ∈ flags, ∀ n ∈ f.parts,
      ∃ v, set.lookup n = some (n, v) ∧ v.kind = f.cellKind ∧ v.wfB = true)
    (hcnt : ∀ f ∈ flags, visitedCount visited f ≤ 1)
    (hskip : ∀ f ∈ flags, f.parts.length = 1 ∨ visitedCount visited f = 0 ∨
      f.cellKind = FlagKind.strSliceK ∨ f.cellKind = FlagKind.intSliceK) :
    normGo visited flags set = (none, set) := by
  induction flags with
  | nil => rfl
  | cons g rest ih =>
    have hid := normalizeStep_id (hcells g (List.mem_cons_self _ _))
      (hcnt g (List.mem_cons_self _ _)) (hskip g (List.mem_cons_self _ _))
    rw [normGo_cons, hid]
    exact ih (fun f hf => hcells f (List.mem_cons_of_mem _ hf))
      (fun f hf => hcnt f (List.mem_cons_of_mem _ hf))
      (fun f hf => hskip f (List.mem_cons_of_mem _ hf))

theorem normGo_append (visited : List String) (l1 l2 : List GoFlag) (set : FlagSet) :
    normGo visited (l1 ++ l2) set =
      match normGo visited l1 set with
      | (some e, s) => (some e, s)
      | (none, s) => normGo visited l2 s := by
  induction l1 generalizing set with
  | nil => rfl
  | cons g rest ih =>
    rw [List.cons_append, normGo_cons, normGo_cons]
    cases hstep : normalizeStep visited set g with
    | error e => rfl
    | ok set2 => exact ih set2

theorem parts_length_pos (f : GoFlag) : 1 ≤ f.parts.length := by
  have h : ∀ l : List Char, splitComma l ≠ [] := by
    intro l
    induction l with
    | nil => simp [splitComma]
    | cons c rest ih =>
      unfold splitComma
      by_cases hc : c == ','
      · simp [hc]
      · simp only [hc, Bool.false_eq_true, if_false]
        cases hr : splitComma rest with
        | nil => exact absurd hr ih
        | cons a b => simp
  have h2 : f.parts ≠ [] := by
    unfold GoFlag.parts mapS goSplit
    intro hcon
    have := List.map_eq_nil_iff.mp (List.map_eq_nil_iff.mp hcon)
    exact h _ this
  cases hp : f.parts with
  | nil => exact absurd hp h2
  | cons a b => simp

theorem normGo_err {visited : List String} {flags : List GoFlag} {set : FlagSet}
    (hnd : ∀ f ∈ flags, f.parts.Nodup)
    (hlk : ∀ f ∈ flags, ∀ n ∈ f.parts, (set.lookup n).isSome)
    (hex : ∃ f ∈ flags, 2 ≤ visitedCount visited f) :
    (normGo visited flags set).1.isSome := by
  induction flags generalizing set with
  | nil =>
    obtain ⟨f, hf, _⟩ := hex
    exact absurd hf (List.not_mem_nil f)
  | cons g rest ih =>
    by_cases hg : 2 ≤ visitedCount visited g
    · obtain ⟨n1, n2, _, _, _, _, _, hpf⟩ := pickFF_conflict (hnd g (List.mem_cons_self _ _)) hg
        (fun n hn _ => hlk g (List.mem_cons_self _ _) n hn)
      have hlen2 : 2 ≤ g.parts.length :=
        le_trans hg (List.countP_le_length _)
      have hlenb : (g.parts.length == 1) = false := by
        simp only [beq_eq_false_iff_ne]
        omega
      have hstep : normalizeStep visited set g = .error (conflictMsg n2 n1) := by
        unfold normalizeStep
        simp only [hlenb, Bool.false_eq_true, if_false]
        rw [hpf]
      rw [normGo_cons, hstep]
      rfl
    · have hcntg : visitedCount visited g ≤ 1 := by omega
      obtain ⟨set2, hstep⟩ := normalizeStep_ok hcntg
      obtain ⟨_, hkeys, _, _⟩ := normalizeStep_ok_frame hstep
      have hlk2 : ∀ f ∈ rest, ∀ n ∈ f.parts, (set2.lookup n).isSome := by
        intro f hf n hn
        rw [lookup_isSome_iff, hkeys, ← lookup_isSome_iff]
        exact hlk f (List.mem_cons_of_mem _ hf) n hn
      have hex2 : ∃ f ∈ rest, 2 ≤ visitedCount visited f := by
        obtain ⟨f, hf, hf2⟩ := hex
        rcases List.mem_cons.mp hf with rfl | hf
        · exact absurd hf2 hg
        · exact ⟨f, hf, hf2⟩
      rw [normGo_cons, hstep]
      exact ih (fun f hf => hnd f (List.mem_cons_of_mem _ hf)) hlk2 hex2

theorem partsNames_append (l1 l2 : List GoFlag) :
    partsNames (l1 ++ l2) = partsNames l1 ++ partsNames l2 := by
  simp [partsNames]

theorem parts_nodup_of_partsNames {flags : List GoFlag} (hnd : (partsNames flags).Nodup)
    {f : GoFlag} (hf : f ∈ flags) : f.parts.Nodup := by
  induction flags with
  | nil => exact absurd hf (List.not_mem_nil f)
  | cons g rest ih =>
    rw [partsNames_cons] at hnd
    obtain ⟨hndg, hndr, _⟩ := List.nodup_append.mp hnd
    rcases List.mem_cons.mp hf with rfl | hf
    · exact hndg
    · exact ih hndr hf

theorem mem_partsNames {flags : List GoFlag} {f : GoFlag} (hf : f ∈ flags) {n : String}
    (hn : n ∈ f.parts) : n ∈ partsNames flags := by
  unfold partsNames
  exact List.mem_flatten.mpr ⟨f.parts, List.mem_map.mpr ⟨f, hf, rfl⟩, hn⟩

theorem cellsOKb_spec {flags : List GoFlag} {set : FlagSet} (h : cellsOKb flags set = true) :
    ∀ f ∈ flags, ∀ n ∈ f.parts,
      ∃ v, set.lookup n = some (n, v) ∧ v.kind = f.cellKind ∧ v.wfB = true := by
  intro f hf n hn
  have h1 := List.all_eq_true.mp h f hf
  have h2 := List.all_eq_true.mp h1 n hn
  cases hl : set.lookup n with
  | none =>
    simp only [hl] at h2
    exact Bool.noConfusion h2
  | some p =>
    obtain ⟨p1, p2⟩ := p
    simp only [hl, Bool.and_eq_true, beq_iff_eq] at h2
    obtain ⟨⟨hp1, hp2⟩, hp3⟩ := h2
    refine ⟨p2, ?_, hp2, hp3⟩
    rw [hp1]

theorem unvisitedDefaultB_spec {flags : List GoFlag} {set : FlagSet}
    (h : unvisitedDefaultB flags set = true) :
    ∀ f ∈ flags, ∀ n ∈ f.parts, set.actual.contains n = false →
      set.lookup n = some (n, f.defaultValue) := by
  intro f hf n hn hv
  have h1 := List.all_eq_true.mp h f hf
  have h2 := List.all_eq_true.mp h1 n hn
  rw [Bool.or_eq_true, hv] at h2
  rcases h2 with h2 | h2
  · exact Bool.noConfusion h2
  · simpa using h2

theorem lookups_eq_of_cells_eq {s : FlagSet} {a b : String} {w : FlagValue}
    (ha : s.lookup a = some (a, w)) (hb : s.lookup b = some (b, w)) :
    lookupInt a s = lookupInt b s ∧ lookupFloat64 a s = lookupFloat64 b s ∧
    lookupBool a s = lookupBool b s ∧ lookupBoolT a s = lookupBoolT b s ∧
    lookupString a s = lookupString b s ∧
    lookupStringSlice a s = lookupStringSlice b s ∧
    lookupIntSlice a s = lookupIntSlice b s := by
  unfold lookupInt lookupFloat64 lookupBool lookupBoolT lookupString lookupStringSlice
    lookupIntSlice
  rw [ha, hb]
  exact ⟨rfl, rfl, rfl, rfl, rfl, rfl, rfl⟩

/-- C1 counterexample: the claim that after a failing normalizeFlags call no
copy onto any alias of any FlagSpec is observable is false — the table is
mutated in place, and a spec processed before the conflicting one keeps its
copy: here the "a, b" spec copies "1" onto "b", then the "c, d" spec fails,
and the failed call's table still shows "b" = "1" (it held "0" before) with
"b" marked set. -/
theorem normalizeFlags_conflict_counterexample :
    (normalizeFlags [GoFlag.stringFlag "a, b" "" "", GoFlag.stringFlag "c, d" "" ""]
      ⟨[("a", .strV "1"), ("b", .strV "0"), ("c", .strV "2"), ("d", .strV "3")],
        ["a", "c", "d"], []⟩).1 = some "Cannot use two forms of the same flag: d c" ∧
    lookupString "b"
      (normalizeFlags [GoFlag.stringFlag "a, b" "" "", GoFlag.stringFlag "c, d" "" ""]
        ⟨[("a", .strV "1"), ("b", .strV "0"), ("c", .strV "2"), ("d", .strV "3")],
          ["a", "c", "d"], []⟩).2 = "1" ∧
    lookupString "b"
      (⟨[("a", .strV "1"), ("b", .strV "0"), ("c", .strV "2"), ("d", .strV "3")],
        ["a", "c", "d"], []⟩ : FlagSet) = "0" ∧
    "b" ∈ (normalizeFlags [GoFlag.stringFlag "a, b" "" "", GoFlag.stringFlag "c, d" "" ""]
      ⟨[("a", .strV "1"), ("b", .strV "0"), ("c", .strV "2"), ("d", .strV "3")],
        ["a", "c", "d"], []⟩).2.actual := by
  refine ⟨by decide, by decide, by decide, by decide⟩

/-- C1 (amended): when the first FlagSpec with two or more explicitly-set
aliases is reached (specs before it each have at most one set alias),
normalizeFlags fails with an error naming two distinct explicitly-set aliases
of that spec; no copying is applied for the conflicting spec or later specs,
but copies already applied for earlier specs persist — the table after the
failing call is exactly the table after processing the earlier specs, which
agrees with the input table only outside the earlier specs' aliases. -/
theorem normalizeFlags_conflict (pre post : List GoFlag) (f : GoFlag) (set : FlagSet)
    (hnd : (partsNames (pre ++ f :: post)).Nodup)
    (hcells : cellsOKb (pre ++ f :: post) set = true)
    (hpre : ∀ g ∈ pre, visitedCount set.actual g ≤ 1)
    (hf2 : 2 ≤ visitedCount set.actual f) :
    ∃ n1 n2, n1 ∈ f.parts ∧ n2 ∈ f.parts ∧ n1 ≠ n2 ∧
      set.actual.contains n1 = true ∧ set.actual.contains n2 = true ∧
      normalizeFlags (pre ++ f :: post) set =
        (some (conflictMsg n2 n1), (normGo set.actual pre set).2) ∧
      (normGo set.actual pre set).1 = none ∧
      (∀ m, m ∉ partsNames pre →
        ((normGo set.actual pre set).2.lookup m = set.lookup m ∧
         (m ∈ (normGo set.actual pre set).2.actual ↔ m ∈ set.actual))) := by
  have hcells' := cellsOKb_spec hcells
  have hfmem : f ∈ pre ++ f :: post := List.mem_append.mpr (Or.inr (List.mem_cons_self _ _))
  have hndf : f.parts.Nodup := parts_nodup_of_partsNames hnd hfmem
  have hdisj : ∀ n ∈ f.parts, n ∉ partsNames pre := by
    intro n hn hnp
    rw [partsNames_append, partsNames_cons] at hnd
    obtain ⟨_, _, hd⟩ := List.nodup_append.mp hnd
    exact hd hnp (List.mem_append.mpr (Or.inl hn))
  have hok : (normGo set.actual pre set).1 = none := normGo_ok hpre
  have hframe : ∀ m, m ∉ partsNames pre →
      ((normGo set.actual pre set).2.lookup m = set.lookup m ∧
       (m ∈ (normGo set.actual pre set).2.actual ↔ m ∈ set.actual)) :=
    fun m hm => normGo_frame hm
  have hlk1 : ∀ n ∈ f.parts, ((normGo set.actual pre set).2.lookup n).isSome := by
    intro n hn
    obtain ⟨v, hv1, _, _⟩ := hcells' f hfmem n hn
    rw [(hframe n (hdisj n hn)).1, hv1]
    rfl
  obtain ⟨n1, n2, a1, a2, a3, a4, a5, a6⟩ :=
    @pickFF_conflict set.actual (normGo set.actual pre set).2 f.parts hndf hf2
      (fun n hn _ => hlk1 n hn)
  have hlen2 : 2 ≤ f.parts.length := le_trans hf2 (List.countP_le_length _)
  have hlenb : (f.parts.length == 1) = false := by
    simp only [beq_eq_false_iff_ne]
    omega
  have hstep : normalizeStep set.actual (normGo set.actual pre set).2 f =
      .error (conflictMsg n2 n1) := by
    unfold normalizeStep
    simp only [hlenb, Bool.false_eq_true, if_false]
    rw [a6]
  refine ⟨n1, n2, a1, a2, a3, a4, a5, ?_, hok, hframe⟩
  have hsplit : normGo set.actual pre set = (none, (normGo set.actual pre set).2) := by
    rw [Prod.ext_iff]
    exact ⟨hok, rfl⟩
  show normGo set.actual (pre ++ f :: post) set = _
  rw [normGo_append, hsplit]
  show normGo set.actual (f :: post) (normGo set.actual pre set).2 = _
  rw [normGo_cons, hstep]

/-- Closed instance of normalizeFlags_conflict: with spec "a, b" (only "a"
set) before the conflicting spec "c, d" (both set), the call fails and the
conflicting spec's own cells are untouched. -/
theorem normalizeFlags_conflict_witness :
    ((normalizeFlags [GoFlag.stringFlag "a, b" "" "", GoFlag.stringFlag "c, d" "" ""]
      ⟨[("a", .strV "1"), ("b", .strV "0"), ("c", .strV "2"), ("d", .strV "3")],
        ["a", "c", "d"], []⟩).1).isSome = true ∧
    (normalizeFlags [GoFlag.stringFlag "a, b" "" "", GoFlag.stringFlag "c, d" "" ""]
      ⟨[("a", .strV "1"), ("b", .strV "0"), ("c", .strV "2"), ("d", .strV "3")],
        ["a", "c", "d"], []⟩).2.lookup "c" = some ("c", .strV "2") := by
  obtain ⟨n1, n2, b1, b2, b3, b4, b5, b6, b7, b8⟩ :=
    normalizeFlags_conflict [GoFlag.stringFlag "a, b" "" ""] []
      (GoFlag.stringFlag "c, d" "" "")
      ⟨[("a", .strV "1"), ("b", .strV "0"), ("c", .strV "2"), ("d", .strV "3")],
        ["a", "c", "d"], []⟩
      (by decide) (by decide) (by decide) (by decide)
  constructor
  · rw [show ([GoFlag.stringFlag "a, b" "" "", GoFlag.stringFlag "c, d" "" ""] : List GoFlag) =
      [GoFlag.stringFlag "a, b" "" ""] ++ GoFlag.stringFlag "c, d" "" "" :: [] from rfl, b6]
    rfl
  · rw [show ([GoFlag.stringFlag "a, b" "" "", GoFlag.stringFlag "c, d" "" ""] : List GoFlag) =
      [GoFlag.stringFlag "a, b" "" ""] ++ GoFlag.stringFlag "c, d" "" "" :: [] from rfl, b6]
    exact ((b8 "c" (by decide)).1).trans (by decide)

/-- C3: under the single-set-alias discipline normalizeFlags succeeds; a
multi-alias FlagSpec with exactly one explicitly-set alias has that alias's
resolved value copied onto every other (unset) alias of the same spec; a
string-list-valued flag is exempted from copying and an int-list-valued flag's
copy attempt never lands (its rendered text cannot be parsed back), so
list-valued flags are never aliased to a second cell; single-name FlagSpecs
are skipped entirely. -/
theorem normalizeFlags_copy_semantics (flags : List GoFlag) (set : FlagSet)
    (hnd : (partsNames flags).Nodup)
    (hcells : cellsOKb flags set = true)
    (hcnt : ∀ f ∈ flags, visitedCount set.actual f ≤ 1) :
    (normalizeFlags flags set).1 = none ∧
    ∀ f ∈ flags,
      (f.parts.length = 1 →
        ∀ n ∈ f.parts, (normalizeFlags flags set).2.lookup n = set.lookup n) ∧
      (f.cellKind = FlagKind.strSliceK ∨ f.cellKind = FlagKind.intSliceK →
        ∀ n ∈ f.parts, (normalizeFlags flags set).2.lookup n = set.lookup n) ∧
      (f.cellKind ≠ FlagKind.strSliceK → f.cellKind ≠ FlagKind.intSliceK →
        f.parts.length ≠ 1 → visitedCount set.actual f = 1 →
        ∃ v w, v ∈ f.parts ∧ set.actual.contains v = true ∧ set.lookup v = some (v, w) ∧
          (∀ b ∈ f.parts, set.actual.contains b = false →
            (normalizeFlags flags set).2.lookup b = some (b, w)) ∧
          (∀ b ∈ f.parts, (normalizeFlags flags set).2.lookup b = some (b, w))) := by
  obtain ⟨h1, h2⟩ := @normGo_spec set.actual flags set hnd (cellsOKb_spec hcells) hcnt
  refine ⟨h1, fun f hf => ?_⟩
  obtain ⟨hA, hB⟩ := h2 f hf
  refine ⟨fun hlen n hn => hA (Or.inl hlen) n hn,
    fun hsl n hn => hA (Or.inr (Or.inr hsl)) n hn,
    fun hns1 hns2 hlen hone => ?_⟩
  obtain ⟨v, w, hv1, hv2, hv3, _, hall, _⟩ := hB hns1 hns2 hlen hone
  exact ⟨v, w, hv1, hv2, hv3, fun b hb _ => hall b hb, hall⟩

/-- Closed instance of normalizeFlags_copy_semantics: the "verbose, V" string
spec with only "verbose" set copies "x" onto "V"; the string-slice spec
"tags, t" is left untouched; the single-name spec "q" is skipped. -/
theorem normalizeFlags_copy_semantics_witness :
    (normalizeFlags
      [GoFlag.stringFlag "verbose, V" "def" "", GoFlag.stringSliceFlag "tags, t" [] "",
        GoFlag.boolFlag "q" ""]
      ⟨[("verbose", .strV "x"), ("V", .strV "def"), ("tags", .strSliceV ["a"]),
        ("t", .strSliceV []), ("q", .boolV false)], ["verbose", "tags"], []⟩).1 = none ∧
    (normalizeFlags
      [GoFlag.stringFlag "verbose, V" "def" "", GoFlag.stringSliceFlag "tags, t" [] "",
        GoFlag.boolFlag "q" ""]
      ⟨[("verbose", .strV "x"), ("V", .strV "def"), ("tags", .strSliceV ["a"]),
        ("t", .strSliceV []), ("q", .boolV false)], ["verbose", "tags"], []⟩).2.lookup "V" =
      some ("V", .strV "x") ∧
    (normalizeFlags
      [GoFlag.stringFlag "verbose, V" "def" "", GoFlag.stringSliceFlag "tags, t" [] "",
        GoFlag.boolFlag "q" ""]
      ⟨[("verbose", .strV "x"), ("V", .strV "def"), ("tags", .strSliceV ["a"]),
        ("t", .strSliceV []), ("q", .boolV false)], ["verbose", "tags"], []⟩).2.lookup "t" =
      some ("t", .strSliceV []) := by
  obtain ⟨h1, h2⟩ := normalizeFlags_copy_semantics
    [GoFlag.stringFlag "verbose, V" "def" "", GoFlag.stringSliceFlag "tags, t" [] "",
      GoFlag.boolFlag "q" ""]
    ⟨[("verbose", .strV "x"), ("V", .strV "def"), ("tags", .strSliceV ["a"]),
      ("t", .strSliceV []), ("q", .boolV false)], ["verbose", "tags"], []⟩
    (by decide) (by decide) (by decide)
  refine ⟨h1, ?_, ?_⟩
  · obtain ⟨_, _, hC⟩ := h2 (GoFlag.stringFlag "verbose, V" "def" "") (by decide)
    obtain ⟨v, w, hv1, hv2, hv3, _, hall⟩ := hC (by decide) (by decide) (by decide) (by decide)
    have hv : v = "verbose" := by
      have hps : (GoFlag.stringFlag "verbose, V" "def" "").parts = ["verbose", "V"] := by
        decide
      rw [hps] at hv1
      have hv1' : v = "verbose" ∨ v = "V" := by
        simpa using hv1
      rcases hv1' with rfl | rfl
      · rfl
      · exact absurd hv2 (by decide)
    subst hv
    have hw : w = .strV "x" := by
      rw [show (⟨[("verbose", .strV "x"), ("V", .strV "def"), ("tags", .strSliceV ["a"]),
        ("t", .strSliceV []), ("q", .boolV false)], ["verbose", "tags"], []⟩ : FlagSet).lookup
          "verbose" = some ("verbose", .strV "x") from rfl] at hv3
      injection hv3 with hv3
      injection hv3 with _ hv3
      exact hv3.symm
    subst hw
    exact hall "V" (by decide)
  · obtain ⟨_, hSl, _⟩ := h2 (GoFlag.stringSliceFlag "tags, t" [] "") (by decide)
    exact (hSl (Or.inl (by decide)) "t" (by decide)).trans (by decide)

/-- C2 counterexample: normalization is not idempotent — with a "foo, f" spec
and only "foo" set, the first normalizeFlags run succeeds and copies, but the
copy marks "f" as set, so a second run on the resulting table fails with an
alias conflict instead of succeeding unchanged. -/
theorem normalizeFlags_not_idempotent :
    (normalizeFlags [GoFlag.stringFlag "foo, f" "" ""]
      ⟨[("foo", .strV "x"), ("f", .strV "")], ["foo"], []⟩).1 = none ∧
    (normalizeFlags [GoFlag.stringFlag "foo, f" "" ""]
      (normalizeFlags [GoFlag.stringFlag "foo, f" "" ""]
        ⟨[("foo", .strV "x"), ("f", .strV "")], ["foo"], []⟩).2).1 =
      some "Cannot use two forms of the same flag: f foo" := by
  refine ⟨by decide, by decide⟩

/-- C2 (amended): with at most one explicitly-set alias per multi-alias spec,
normalizeFlags succeeds and afterwards every alias of a non-list-valued
FlagSpec holds the same value, so all typed accessors agree across aliases
(list-valued specs keep per-alias cells).  Normalization is idempotent only
when no copy occurred: if every multi-alias spec is list-valued or has no
explicitly-set alias the table is returned unchanged (so a second run behaves
identically), but whenever some non-list multi-alias spec had exactly one
explicitly-set alias, the copy marks the other aliases as set and a second
run fails with a conflict error. -/
theorem normalizeFlags_single_set (flags : List GoFlag) (set : FlagSet)
    (hnd : (partsNames flags).Nodup)
    (hcells : cellsOKb flags set = true)
    (hdef : unvisitedDefaultB flags set = true)
    (hcnt : ∀ f ∈ flags, visitedCount set.actual f ≤ 1) :
    (normalizeFlags flags set).1 = none ∧
    (∀ f ∈ flags, f.cellKind ≠ FlagKind.strSliceK → f.cellKind ≠ FlagKind.intSliceK →
      ∃ w, (∀ b ∈ f.parts, (normalizeFlags flags set).2.lookup b = some (b, w)) ∧
        (∀ a ∈ f.parts, ∀ b ∈ f.parts,
          lookupInt a (normalizeFlags flags set).2 = lookupInt b (normalizeFlags flags set).2 ∧
          lookupFloat64 a (normalizeFlags flags set).2 =
            lookupFloat64 b (normalizeFlags flags set).2 ∧
          lookupBool a (normalizeFlags flags set).2 = lookupBool b (normalizeFlags flags set).2 ∧
          lookupBoolT a (normalizeFlags flags set).2 =
            lookupBoolT b (normalizeFlags flags set).2 ∧
          lookupString a (normalizeFlags flags set).2 =
            lookupString b (normalizeFlags flags set).2 ∧
          lookupStringSlice a (normalizeFlags flags set).2 =
            lookupStringSlice b (normalizeFlags flags set).2 ∧
          lookupIntSlice a (normalizeFlags flags set).2 =
            lookupIntSlice b (normalizeFlags flags set).2)) ∧
    ((∀ f ∈ flags, f.parts.length = 1 ∨ visitedCount set.actual f = 0 ∨
       f.cellKind = FlagKind.strSliceK ∨ f.cellKind = FlagKind.intSliceK) →
      normalizeFlags flags set = (none, set)) ∧
    ((∃ f ∈ flags, f.parts.length ≠ 1 ∧ f.cellKind ≠ FlagKind.strSliceK ∧
       f.cellKind ≠ FlagKind.intSliceK ∧ visitedCount set.actual f = 1) →
      ((normalizeFlags flags ((normalizeFlags flags set).2)).1).isSome) := by
  have hcells' := cellsOKb_spec hcells
  have hdef' := unvisitedDefaultB_spec hdef
  obtain ⟨h1, h2⟩ := @normGo_spec set.actual flags set hnd hcells' hcnt
  refine ⟨h1, fun f hf hns1 hns2 => ?_, fun hskip => ?_, fun hex => ?_⟩
  · have hmk : ∀ w, (∀ b ∈ f.parts, (normalizeFlags flags set).2.lookup b = some (b, w)) →
        ∃ w, (∀ b ∈ f.parts, (normalizeFlags flags set).2.lookup b = some (b, w)) ∧
        (∀ a ∈ f.parts, ∀ b ∈ f.parts,
          lookupInt a (normalizeFlags flags set).2 = lookupInt b (normalizeFlags flags set).2 ∧
          lookupFloat64 a (normalizeFlags flags set).2 =
            lookupFloat64 b (normalizeFlags flags set).2 ∧
          lookupBool a (normalizeFlags flags set).2 = lookupBool b (normalizeFlags flags set).2 ∧
          lookupBoolT a (normalizeFlags flags set).2 =
            lookupBoolT b (normalizeFlags flags set).2 ∧
          lookupString a (normalizeFlags flags set).2 =
            lookupString b (normalizeFlags flags set).2 ∧
          lookupStringSlice a (normalizeFlags flags set).2 =
            lookupStringSlice b (normalizeFlags flags set).2 ∧
          lookupIntSlice a (normalizeFlags flags set).2 =
            lookupIntSlice b (normalizeFlags flags set).2) := by
      intro w hwall
      exact ⟨w, hwall, fun a ha b hb => lookups_eq_of_cells_eq (hwall a ha) (hwall b hb)⟩
    obtain ⟨hA, hB⟩ := h2 f hf
    by_cases hlen : f.parts.length = 1
    · obtain ⟨n, hn⟩ := List.length_eq_one.mp hlen
      obtain ⟨v, hv1, hv2, hv3⟩ := hcells' f hf n (by rw [hn]; exact List.mem_cons_self _ _)
      refine hmk v (fun b hb => ?_)
      have hbn : b = n := by
        rw [hn] at hb
        simpa using hb
      subst hbn
      exact (hA (Or.inl hlen) b (by rw [hn]; exact List.mem_cons_self _ _)).trans hv1
    · by_cases h0 : visitedCount set.actual f = 0
      · refine hmk f.defaultValue (fun b hb => ?_)
        have hbv : set.actual.contains b = false := by
          have := List.countP_eq_zero.mp h0 b hb
          simpa using this
        exact (hA (Or.inr (Or.inl h0)) b hb).trans (hdef' f hf b hb hbv)
      · have hone : visitedCount set.actual f = 1 := by
          have := hcnt f hf
          omega
        obtain ⟨v, w, _, _, _, _, hall, _⟩ := hB hns1 hns2 hlen hone
        exact hmk w hall
  · exact normGo_id hcells' hcnt hskip
  · obtain ⟨f, hf, hflen, hfns1, hfns2, hfone⟩ := hex
    obtain ⟨_, hB⟩ := h2 f hf
    obtain ⟨v, w, _, _, _, _, _, hact⟩ := hB hfns1 hfns2 hflen hfone
    have hall : ∀ b ∈ f.parts,
        ((normalizeFlags flags set).2.actual.contains b) = true := by
      intro b hb
      by_cases hbv : set.actual.contains b = true
      · have hbm : b ∈ set.actual := by simpa using hbv
        have : b ∈ (normGo set.actual flags set).2.actual := normGo_actual_mono hbm
        simpa using this
      · have hbvf : set.actual.contains b = false := by
          cases hx : set.actual.contains b
          · rfl
          · exact absurd hx hbv
        have := hact b hb hbvf
        simpa using this
    have hcount : 2 ≤ visitedCount ((normalizeFlags flags set).2.actual) f := by
      unfold visitedCount
      rw [List.countP_eq_length.mpr (fun b hb => hall b hb)]
      have := parts_length_pos f
      omega
    exact normGo_err (fun g hg => parts_nodup_of_partsNames hnd hg)
      (fun g hg n hn => by
        rw [lookup_isSome_iff]
        show n ∈ ((normGo set.actual flags set).2).formal.map Prod.fst
        rw [normGo_keys, ← lookup_isSome_iff]
        obtain ⟨v2, hv2, _, _⟩ := hcells' g hg n hn
        rw [hv2]
        rfl)
      ⟨f, hf, hcount⟩

/-- Closed instance of normalizeFlags_single_set: after normalizing the
"foo, f" table with only "foo" set, both aliases agree through the string
accessor, and the second run fails. -/
theorem normalizeFlags_single_set_witness :
    (normalizeFlags [GoFlag.stringFlag "foo, f" "" ""]
      ⟨[("foo", .strV "x"), ("f", .strV "")], ["foo"], []⟩).1 = none ∧
    lookupString "foo" (normalizeFlags [GoFlag.stringFlag "foo, f" "" ""]
      ⟨[("foo", .strV "x"), ("f", .strV "")], ["foo"], []⟩).2 =
      lookupString "f" (normalizeFlags [GoFlag.stringFlag "foo, f" "" ""]
        ⟨[("foo", .strV "x"), ("f", .strV "")], ["foo"], []⟩).2 ∧
    ((normalizeFlags [GoFlag.stringFlag "foo, f" "" ""]
      ((normalizeFlags [GoFlag.stringFlag "foo, f" "" ""]
        ⟨[("foo", .strV "x"), ("f", .strV "")], ["foo"], []⟩).2)).1).isSome := by
  obtain ⟨h1, h2, h3, h4⟩ := normalizeFlags_single_set [GoFlag.stringFlag "foo, f" "" ""]
    ⟨[("foo", .strV "x"), ("f", .strV "")], ["foo"], []⟩
    (by decide) (by decide) (by decide) (by decide)
  obtain ⟨w, hwall, hacc⟩ := h2 (GoFlag.stringFlag "foo, f" "" "") (by decide)
    (by decide) (by decide)
  refine ⟨h1, ?_, ?_⟩
  · exact (hacc "foo" (by decide) "f" (by decide)).2.2.2.2.1
  · exact h4 ⟨GoFlag.stringFlag "foo, f" "" "", by decide, by decide, by decide, by decide,
      by decide⟩
